import Mathlib

/-!
# Verification of the golf-tournament scraper (`app.py`)

This file gives a shallow embedding of the data model and the operations of the
scraper in `app.py`, and settles the specification claims against it.

Modelling conventions:
* Python strings are Lean `String`s; byte strings are `List Nat` (one entry per
  byte, each < 256).
* Machine-level hashing (`hashlib.md5`) is implemented over `Nat` with explicit
  `% 2 ^ 32` reductions.
* Python exceptions are modelled with `Except PyError`; a Python function that
  can raise returns `Except PyError α`.
* DOM values (BeautifulSoup elements) are opaque: functions that walk the DOM
  (the per-site item parsers, `extract_eligibility_info`, `extract_qualifier_info`)
  enter the model as parameters, while the control flow of `app.py` around them
  is embedded faithfully.
-/

namespace GolfScraper

/-! ## Python string primitives -/

/-- `strHasPrefix pat text`: `pat` is a prefix of `text` (on char lists). -/
def strHasPrefix : List Char → List Char → Bool
  | [], _ => true
  | _ :: _, [] => false
  | p :: ps, c :: cs => p == c && strHasPrefix ps cs

/-- `strHasInfix text pat`: `pat` occurs contiguously inside `text`. -/
def strHasInfix : List Char → List Char → Bool
  | [], pat => strHasPrefix pat []
  | c :: rest, pat => strHasPrefix pat (c :: rest) || strHasInfix rest pat

/-- Python `needle in hay` for strings: substring (infix) test. -/
def pyContains (hay needle : String) : Bool :=
  strHasInfix hay.data needle.data

/-- Python `str.lower()` (ASCII range; the strings in `app.py` are ASCII). -/
def pyLower (s : String) : String :=
  String.mk (s.data.map Char.toLower)

/-- Python `str.strip()` whitespace class (ASCII part). -/
def isPySpace (c : Char) : Bool :=
  c = ' ' || c = '\t' || c = '\n' || c = '\r' || c = '\x0b' || c = '\x0c'

/-- Python `str.strip()`: remove leading and trailing whitespace. -/
def pyStrip (s : String) : String :=
  String.mk (((s.data.dropWhile isPySpace).reverse.dropWhile isPySpace).reverse)

/-- Python truthiness of an optional string: `None` and `""` are falsy. -/
def pyTruthyStr : Option String → Bool
  | none => false
  | some s => s ≠ ""

/-! ## `is_qualifier_tournament` (app.py lines 393-404) -/

/-- The keyword list of `is_qualifier_tournament`. -/
def qualifierKeywords : List String :=
  ["qualifier", "qualifying", "qualification", "q-school", "q school",
   "local qualifying", "sectional qualifying", "regional qualifying"]

/-- `is_qualifier_tournament(name)` (lines 393-404): `False` for a falsy name,
otherwise checks whether any keyword occurs in the lowercased name. -/
def is_qualifier_tournament (name : Option String) : Bool :=
  match name with
  | none => false
  | some n => if n = "" then false
      else qualifierKeywords.any (fun kw => pyContains (pyLower n) kw)

/-! ## Tournament records

A tournament record is the dictionary built by the per-site item parsers
(e.g. `parse_generic_tournament_item`, lines 691-701). All parsers initialise
the same key set; values are nullable. -/

structure Tournament where
  name : Option String
  date : Option String
  golfCourseName : Option String
  location : Option String
  tournamentType : Option String
  isQualifier : Bool
  hasQualifiers : Option Bool
  detailURL : Option String
  eligibility : Option String
  tournamentID : Option String
  qualifierCount : Option Nat
deriving DecidableEq, Repr

/-! ## Site classification (`detect_site_type`, lines 658-685) -/

inductive SiteType
  | fsga
  | golfgenius
  | bluegolf
  | generic
deriving DecidableEq, Repr

/-- `detect_site_type(url, html)` (lines 658-685). The content checks on
`soup.get_text()` / `str(soup)` are modelled as substring checks on the html
text. -/
def detect_site_type (url : String) (html : Option String) : SiteType :=
  if pyContains (pyLower url) "fsga.org" then .fsga
  else if pyContains (pyLower url) "golfgenius" then .golfgenius
  else if pyContains (pyLower url) "bluegolf" then .bluegolf
  else
    match html with
    | some h =>
      if pyContains h "Florida State Golf Association" || pyContains h "FSGA" then .fsga
      else if pyContains h "GolfGenius" || pyContains h "Golf Genius" then .golfgenius
      else if pyContains h "BlueGolf" || pyContains h "Blue Golf"
          || pyContains h "bluegolf.com" then .bluegolf
      else .generic
    | none => .generic

/-! ## Candidate-element harvesting (`scrape_tournament_focused`, lines 1600-1645) -/

/-- The per-site selector lists (lines 1600-1639). -/
def selectorsFor : SiteType → List String
  | .fsga =>
      ["table.tournament-results tbody tr", "div.tournament-item",
       ".events-list .event-item", ".tournament-list-item", "div.card",
       "div.event-card", "ul.event-list li"]
  | .golfgenius =>
      [".event-row", ".tournament-item", ".event-card", ".event-list-item",
       ".event-box", ".tournament-box", ".tournament-card"]
  | .bluegolf =>
      ["table.tournamentItem", "tr.tournamentItem", "div.tournamentItem",
       ".eventRow", ".eventItem"]
  | .generic =>
      ["table tr", "div.item", "div.event", "div.tournament", "li", "article",
       "div.card"]

/-- The selector loop of `scrape_tournament_focused` (lines 1641-1645):

```
for selector in selectors:
    elements = soup.select(selector)
    if elements:
        tournament_elements.extend(elements)
```

`select` stands for `soup.select`; `α` is the type of DOM elements. Every
selector with a non-empty match set contributes its matches. -/
def collectElements {α : Type} (select : String → List α) (selectors : List String) :
    List α :=
  selectors.foldl (fun acc sel =>
    let els := select sel
    if els.isEmpty then acc else acc ++ els) []

/-- Modelled from the spec: the winner-take-all harvesting chain the spec
describes ("the first selector that yields ... matches is accepted, and
harvesting stops"). Used only to compare against `collectElements`, which is
the behaviour of the source. -/
def winnerTakeAllElements {α : Type} (select : String → List α)
    (selectors : List String) : List α :=
  match selectors.find? (fun sel => !(select sel).isEmpty) with
  | some sel => select sel
  | none => []

/-! ## Python exceptions -/

inductive PyError
  | nameError (name : String)
  | reError (msg : String)
deriving DecidableEq, Repr

/-! ## The per-element processing loop (lines 1665-1713) -/

/-- The three per-site item parsers that `app.py` defines
(`parse_fsga_tournament_item`, `parse_bluegolf_tournament_item`,
`parse_generic_tournament_item`). They walk DOM elements, so they are
parameters of the model; each returns `none` where the Python function
returns `None` (record discarded). -/
structure ItemParsers (Elem : Type) where
  fsga : Elem → Option Tournament
  bluegolf : Elem → Option Tournament
  generic : Elem → Option Tournament

/-- The parser dispatch (lines 1676-1683). `parse_golfgenius_tournament_item`
is referenced at line 1679 but is not defined anywhere in `app.py`, so the
`golfgenius` branch raises `NameError` when it executes. -/
def dispatchItemParse {Elem : Type} (P : ItemParsers Elem) (site : SiteType)
    (e : Elem) : Except PyError (Option Tournament) :=
  match site with
  | .fsga => .ok (P.fsga e)
  | .golfgenius => .error (.nameError "parse_golfgenius_tournament_item")
  | .bluegolf => .ok (P.bluegolf e)
  | .generic => .ok (P.generic e)

/-- Lines 1686-1691: set `Is Qualifier` from the record's name and force
`Tournament Type` to `Qualifying Round` for qualifiers. -/
def setQualifierFields (t : Tournament) : Tournament :=
  let q := is_qualifier_tournament t.name
  let t1 := { t with isQualifier := q }
  if q then { t1 with tournamentType := some "Qualifying Round" } else t1

/-- The result of the detail-page enrichment block (lines 1698-1713):
`extract_eligibility_info` and `extract_qualifier_info` on the fetched detail
page. A `none` result of the `detailInfo` parameter models `get_page_html`
returning `None` for the detail URL. -/
structure EnrichResult where
  eligibility : Option String
  qualifiers : List Tournament
deriving DecidableEq, Repr

/-- `max_details is None or i < max_details` (line 1696). -/
def maxDetailsAllows : Option Nat → Nat → Bool
  | none, _ => true
  | some m, i => i < m

/-- One iteration of the loop body (lines 1666-1713) for element `e` at index
`i`, acting on the accumulated `tournaments` list. There is no `try/except`
around the parser call: an exception from it propagates. -/
def processElement {Elem : Type} (P : ItemParsers Elem) (site : SiteType)
    (detailInfo : String → Option EnrichResult) (maxDetails : Option Nat)
    (i : Nat) (e : Elem) (ts : List Tournament) :
    Except PyError (List Tournament) := do
  let t? ← dispatchItemParse P site e
  match t? with
  | none => pure ts
  | some t0 =>
    let t := setQualifierFields t0
    if pyTruthyStr t.detailURL && maxDetailsAllows maxDetails i then
      match detailInfo (t.detailURL.getD "") with
      | none => pure (ts ++ [t])
      | some r =>
        let t1 := if pyTruthyStr r.eligibility
          then { t with eligibility := r.eligibility } else t
        let t2 := if r.qualifiers.isEmpty
          then { t1 with hasQualifiers := some false }
          else { t1 with hasQualifiers := some true,
                         qualifierCount := some r.qualifiers.length }
        pure (ts ++ [t2] ++ r.qualifiers)
    else
      pure (ts ++ [t])

/-- The loop over candidate elements, from index `i` with accumulator `ts`. -/
def processElementsFrom {Elem : Type} (P : ItemParsers Elem) (site : SiteType)
    (detailInfo : String → Option EnrichResult) (maxDetails : Option Nat)
    (i : Nat) (elems : List Elem) (ts : List Tournament) :
    Except PyError (List Tournament) :=
  match elems with
  | [] => .ok ts
  | e :: rest => do
      let ts' ← processElement P site detailInfo maxDetails i e ts
      processElementsFrom P site detailInfo maxDetails (i + 1) rest ts'

/-- The whole per-element loop of the schedule-page branch (lines 1665-1713):
records are appended as produced; no seen-ID set exists anywhere in the loop. -/
def processElements {Elem : Type} (P : ItemParsers Elem) (site : SiteType)
    (detailInfo : String → Option EnrichResult) (maxDetails : Option Nat)
    (elems : List Elem) : Except PyError (List Tournament) :=
  processElementsFrom P site detailInfo maxDetails 0 elems []

/-! ## `get_page_html` (lines 334-355) -/

/-- Outcome of one `requests.get` attempt (the network is the environment). -/
inductive FetchOutcome
  | success (body : String)
  | failure
deriving DecidableEq, Repr

/-- The retry loop of `get_page_html`, instrumented with the list of URLs that
were passed to `requests.get`. `respond attempt url` is the environment's
answer to the attempt. The function passes `url` to `requests.get` exactly as
received: no scheme normalization happens anywhere in the function. -/
def get_page_html_go (respond : Nat → String → FetchOutcome) (url : String) :
    Nat → Nat → List String → Option String × List String
  | 0, _, trace => (none, trace)
  | fuel + 1, attempt, trace =>
    match respond attempt url with
    | .success body => (some body, trace ++ [url])
    | .failure =>
      if fuel = 0 then (none, trace ++ [url])
      else get_page_html_go respond url fuel (attempt + 1) (trace ++ [url])

/-- `get_page_html(url, timeout=15, max_retries=3)` (lines 334-355): returns
the fetched body (or `None` after `max_retries` failures) together with the
trace of requested URLs. -/
def get_page_html (respond : Nat → String → FetchOutcome) (url : String)
    (maxRetries : Nat) : Option String × List String :=
  get_page_html_go respond url maxRetries 0 []

/-- `url.startswith(('http://', 'https://'))`: the explicit-scheme test used
throughout `app.py` (lines 550, 739, ...). -/
def hasScheme (url : String) : Bool :=
  strHasPrefix "http://".data url.data || strHasPrefix "https://".data url.data

/-! ## MD5 (`hashlib.md5`) over byte lists

A faithful `Nat`-based implementation of RFC 1321, used by
`generate_tournament_id` (line 331) via `.hexdigest()`. -/

/-- UTF-8 encoding of one character (Python `str.encode()`), as bytes. -/
def utf8EncodeChar (c : Char) : List Nat :=
  let n := c.toNat
  if n < 0x80 then [n]
  else if n < 0x800 then [0xc0 + n / 0x40, 0x80 + n % 0x40]
  else if n < 0x10000 then
    [0xe0 + n / 0x1000, 0x80 + n / 0x40 % 0x40, 0x80 + n % 0x40]
  else
    [0xf0 + n / 0x40000, 0x80 + n / 0x1000 % 0x40, 0x80 + n / 0x40 % 0x40,
     0x80 + n % 0x40]

/-- Python `str.encode()`: UTF-8 bytes of a string. -/
def utf8Encode (s : String) : List Nat :=
  (s.data.map utf8EncodeChar).flatten

/-- Per-operation left-rotation amounts of MD5. -/
def md5S : List Nat :=
  [7, 12, 17, 22, 7, 12, 17, 22, 7, 12, 17, 22, 7, 12, 17, 22,
   5, 9, 14, 20, 5, 9, 14, 20, 5, 9, 14, 20, 5, 9, 14, 20,
   4, 11, 16, 23, 4, 11, 16, 23, 4, 11, 16, 23, 4, 11, 16, 23,
   6, 10, 15, 21, 6, 10, 15, 21, 6, 10, 15, 21, 6, 10, 15, 21]

/-- The MD5 sine-derived constant table (RFC 1321). -/
def md5K : List Nat :=
  [0xd76aa478, 0xe8c7b756, 0x242070db, 0xc1bdceee,
   0xf57c0faf, 0x4787c62a, 0xa8304613, 0xfd469501,
   0x698098d8, 0x8b44f7af, 0xffff5bb1, 0x895cd7be,
   0x6b901122, 0xfd987193, 0xa679438e, 0x49b40821,
   0xf61e2562, 0xc040b340, 0x265e5a51, 0xe9b6c7aa,
   0xd62f105d, 0x02441453, 0xd8a1e681, 0xe7d3fbc8,
   0x21e1cde6, 0xc33707d6, 0xf4d50d87, 0x455a14ed,
   0xa9e3e905, 0xfcefa3f8, 0x676f02d9, 0x8d2a4c8a,
   0xfffa3942, 0x8771f681, 0x6d9d6122, 0xfde5380c,
   0xa4beea44, 0x4bdecfa9, 0xf6bb4b60, 0xbebfbc70,
   0x289b7ec6, 0xeaa127fa, 0xd4ef3085, 0x04881d05,
   0xd9d4d039, 0xe6db99e5, 0x1fa27cf8, 0xc4ac5665,
   0xf4292244, 0x432aff97, 0xab9423a7, 0xfc93a039,
   0x655b59c3, 0x8f0ccc92, 0xffeff47d, 0x85845dd1,
   0x6fa87e4f, 0xfe2ce6e0, 0xa3014314, 0x4e0811a1,
   0xf7537e82, 0xbd3af235, 0x2ad7d2bb, 0xeb86d391]

/-- 32-bit left rotation on `Nat` (input assumed `< 2 ^ 32`). -/
def rotl32 (x c : Nat) : Nat :=
  ((x <<< c) ||| (x >>> (32 - c))) % 2 ^ 32

/-- The MD5 mixing function for operation `i`. -/
def md5F (i b c d : Nat) : Nat :=
  if i < 16 then (b &&& c) ||| ((b ^^^ 0xffffffff) &&& d)
  else if i < 32 then (d &&& b) ||| ((d ^^^ 0xffffffff) &&& c)
  else if i < 48 then b ^^^ c ^^^ d
  else c ^^^ (b ||| (d ^^^ 0xffffffff))

/-- The MD5 message-word index for operation `i`. -/
def md5G (i : Nat) : Nat :=
  if i < 16 then i
  else if i < 32 then (5 * i + 1) % 16
  else if i < 48 then (3 * i + 5) % 16
  else (7 * i) % 16

/-- One MD5 operation on the state `(a, b, c, d)`. -/
def md5Round (M : List Nat) (st : Nat × Nat × Nat × Nat) (i : Nat) :
    Nat × Nat × Nat × Nat :=
  match st with
  | (a, b, c, d) =>
    let f := (md5F i b c d + a + md5K.getD i 0 + M.getD (md5G i) 0) % 2 ^ 32
    (d, (b + rotl32 f (md5S.getD i 0)) % 2 ^ 32, b, c)

/-- Process one 512-bit chunk (given as 16 little-endian 32-bit words). -/
def md5Chunk (M : List Nat) (h : Nat × Nat × Nat × Nat) : Nat × Nat × Nat × Nat :=
  match h, (List.range 64).foldl (md5Round M) h with
  | (a0, b0, c0, d0), (a, b, c, d) =>
    ((a0 + a) % 2 ^ 32, (b0 + b) % 2 ^ 32, (c0 + c) % 2 ^ 32, (d0 + d) % 2 ^ 32)

/-- `count` little-endian bytes of `n`. -/
def leBytes (n count : Nat) : List Nat :=
  (List.range count).map (fun i => n / 2 ^ (8 * i) % 256)

/-- MD5 padding: `0x80`, zeros to 56 mod 64, then the 64-bit bit length. -/
def md5Pad (msg : List Nat) : List Nat :=
  msg ++ [0x80] ++ List.replicate ((56 + 64 - (msg.length + 1) % 64) % 64) 0
      ++ leBytes (msg.length * 8) 8

/-- The 16 little-endian words of a 64-byte chunk. -/
def chunkWords (chunk : List Nat) : List Nat :=
  (List.range 16).map (fun i =>
    chunk.getD (4 * i) 0 + 256 * chunk.getD (4 * i + 1) 0
      + 65536 * chunk.getD (4 * i + 2) 0 + 16777216 * chunk.getD (4 * i + 3) 0)

/-- Fold the chunk function over the first `n` 64-byte chunks of a padded
message (the padded length is always a multiple of 64). -/
def md5ChunksN : Nat → List Nat → Nat × Nat × Nat × Nat → Nat × Nat × Nat × Nat
  | 0, _, h => h
  | n + 1, bytes, h =>
    md5ChunksN n (bytes.drop 64) (md5Chunk (chunkWords (bytes.take 64)) h)

/-- Lowercase hex digit for `n < 16`. -/
def hexDigitLC (n : Nat) : Char :=
  if n < 10 then Char.ofNat (48 + n) else Char.ofNat (87 + n)

/-- Two lowercase hex digits of a byte. -/
def byteHex (b : Nat) : List Char :=
  [hexDigitLC (b / 16 % 16), hexDigitLC (b % 16)]

/-- `hashlib.md5(bytes).hexdigest()`: the 32-character lowercase hex digest. -/
def md5Hex (msg : List Nat) : String :=
  match md5ChunksN ((md5Pad msg).length / 64) (md5Pad msg)
      (0x67452301, 0xefcdab89, 0x98badcfe, 0x10325476) with
  | (a, b, c, d) =>
    String.mk (((leBytes a 4 ++ leBytes b 4 ++ leBytes c 4 ++ leBytes d 4).map
      byteHex).flatten)

/-! ## `generate_tournament_id` (lines 321-331) -/

/-- The `key_data` string of `generate_tournament_id` (lines 324-328):
`Name + "-" + Date`, plus `"-" + Location` when `Location` is truthy.
It reads exactly the keys `Tournament Name`, `Date` and `Location`. -/
def keyData (t : Tournament) : String :=
  let base := t.name.getD "" ++ "-" ++ t.date.getD ""
  if pyTruthyStr t.location then base ++ "-" ++ t.location.getD "" else base

/-- Python string slicing `s[:n]`. -/
def strTake (s : String) (n : Nat) : String :=
  String.mk (s.data.take n)

/-- `generate_tournament_id(tournament_data)` (lines 321-331): the first 10 hex
digits of the MD5 digest of `key_data` (`.hexdigest()[:10]`). -/
def generate_tournament_id (t : Tournament) : String :=
  strTake (md5Hex (utf8Encode (keyData t))) 10

/-- Modelled from the spec:
`id(record) = first12hex(hash(Name + "-" + OriginalDateText [+ "-" + City +
"-" + State] [+ "-" + Course]))`, with MD5 as the hash. This is the claimed
ID formula, written to be compared with `generate_tournament_id`. -/
def specTournamentId (name dateText : String) (city state course : Option String) :
    String :=
  let base := name ++ "-" ++ dateText
  let base := match city, state with
    | some ci, some st => base ++ "-" ++ ci ++ "-" ++ st
    | _, _ => base
  let base := match course with
    | some co => base ++ "-" ++ co
    | none => base
  strTake (md5Hex (utf8Encode base)) 12

/-! ## `parse_date` (lines 83-162)

`parse_date` strips its input, maps recognized placeholders to `"TBD"`, and
then tries `datetime.strptime` with nine format strings in order, returning
the first parse re-rendered as `%Y-%m-%d`.

The 8th format string, `'%B %d-%d, %Y'` (line 103), contains the directive
`%d` twice. Compiling it produces a regular expression with two groups named
`d`, which makes `re.compile` raise `re.error` ("redefinition of group name
d"). `re.error` is not a `ValueError`, so the `except ValueError` at line 111
does not catch it: whenever the first seven formats all fail, `parse_date`
raises instead of reaching lines 114-162. The date-range fallback, the
component fallback, the relative-date table and the final
`return date_string` (lines 114-162) are therefore unreachable code, and the
model ends the format loop with that error. -/

/-- The placeholder list of line 91. -/
def datePlaceholders : List String :=
  ["tbd", "tba", "to be determined", "to be announced"]

/-- The decimal digit character of `n < 10`. -/
def digitCharOf (n : Nat) : Char := Char.ofNat (48 + n)

/-- Decimal digits of `n`, most significant first (no leading zeros). -/
def natDigits (n : Nat) : List Char :=
  if _h : n < 10 then [digitCharOf n]
  else natDigits (n / 10) ++ [digitCharOf (n % 10)]
termination_by n
decreasing_by omega

/-- A parsed (year, month, day) triple. -/
structure PDate where
  y : Nat
  m : Nat
  d : Nat
deriving DecidableEq, Repr

/-- Sequencing of backtracking parsers: candidate lists in priority order,
mirroring the leftmost/greedy-with-backtracking order of Python's `re`. -/
def pThen {α β : Type} (p : List Char → List (α × List Char))
    (q : α → List Char → List (β × List Char)) (cs : List Char) :
    List (β × List Char) :=
  ((p cs).map (fun ar => q ar.1 ar.2)).flatten

/-- A literal character of the format string. -/
def pLit (ch : Char) (cs : List Char) : List (Unit × List Char) :=
  match cs with
  | c :: rest => if c = ch then [((), rest)] else []
  | [] => []

/-- A whitespace run in the format string, compiled by `_strptime` to `\s+`:
one or more whitespace characters, longest alternative first. -/
def pWs1 (cs : List Char) : List (Unit × List Char) :=
  let k := (cs.takeWhile isPySpace).length
  (List.range k).map (fun j => ((), cs.drop (k - j)))

/-- The `%d` / `%m` directive: one or two digits, two-digit alternative
first, with value in `[1, hi]` (the compiled patterns `(3[01]|[12]\d|0[1-9]|[1-9])`
and `(1[0-2]|0[1-9]|[1-9])` for `hi = 31` and `hi = 12`). -/
def pNum2 (hi : Nat) (cs : List Char) : List (Nat × List Char) :=
  match cs with
  | c1 :: c2 :: rest =>
    (if c1.isDigit && c2.isDigit then
       let v := (c1.toNat - 48) * 10 + (c2.toNat - 48)
       if 1 ≤ v ∧ v ≤ hi then [(v, rest)] else []
     else []) ++
    (if c1.isDigit then
       let v := c1.toNat - 48
       if 1 ≤ v ∧ v ≤ hi then [(v, c2 :: rest)] else []
     else [])
  | [c1] =>
    if c1.isDigit then
      let v := c1.toNat - 48
      if 1 ≤ v ∧ v ≤ hi then [(v, [])] else []
    else []
  | [] => []

/-- The `%Y` directive: exactly four digits. -/
def pYear4 (cs : List Char) : List (Nat × List Char) :=
  match cs with
  | c1 :: c2 :: c3 :: c4 :: rest =>
    if c1.isDigit && c2.isDigit && c3.isDigit && c4.isDigit then
      [((c1.toNat - 48) * 1000 + (c2.toNat - 48) * 100 + (c3.toNat - 48) * 10
          + (c4.toNat - 48), rest)]
    else []
  | _ => []

/-- Case-insensitive prefix test (`pat` stored lowercase). -/
def startsWithCI : List Char → List Char → Bool
  | [], _ => true
  | _ :: _, [] => false
  | p :: ps, c :: cs => p == Char.toLower c && startsWithCI ps cs

def monthNamesFull : List String :=
  ["january", "february", "march", "april", "may", "june", "july", "august",
   "september", "october", "november", "december"]

def monthNamesAbbr : List String :=
  ["jan", "feb", "mar", "apr", "may", "jun", "jul", "aug", "sep", "oct",
   "nov", "dec"]

/-- The `%B` / `%b` directive: a month-name alternation, matched
case-insensitively; the month number is the 1-based index of the name. -/
def pMonthFrom (names : List String) (cs : List Char) : List (Nat × List Char) :=
  names.enum.filterMap (fun p =>
    if startsWithCI p.2.data cs then some (p.1 + 1, cs.drop p.2.length) else none)

/-- Proleptic-Gregorian leap year, as in Python `datetime`. -/
def isLeapYear (y : Nat) : Bool := (y % 4 = 0 && y % 100 ≠ 0) || y % 400 = 0

def daysInMonth (y m : Nat) : Nat :=
  if m = 2 then (if isLeapYear y then 29 else 28)
  else if m = 4 ∨ m = 6 ∨ m = 9 ∨ m = 11 then 30 else 31

/-- The validation performed by the `datetime` constructor
(`MINYEAR = 1`, `MAXYEAR = 9999`, day within the month). -/
def validDateB (y m d : Nat) : Bool :=
  1 ≤ y && y ≤ 9999 && 1 ≤ m && m ≤ 12 && 1 ≤ d && d ≤ daysInMonth y m

/-- The regex engine returns the first alternative that matches the whole
string ("unconverted data remains" otherwise). -/
def firstFullMatch (cands : List (PDate × List Char)) : Option PDate :=
  ((cands.filter (fun pr => pr.2.isEmpty)).head?).map (fun pr => pr.1)

/-- `datetime` construction after a regex match: a `ValueError` on an invalid
date makes this format fail (caught by the `except ValueError`). -/
def validOrNone (d? : Option PDate) : Option PDate :=
  match d? with
  | some dt => if validDateB dt.y dt.m dt.d then some dt else none
  | none => none

/-- Candidates of `'%B %d, %Y'` (e.g. `January 1, 2023`). -/
def fmtBdYCands : List Char → List (PDate × List Char) :=
  pThen (pMonthFrom monthNamesFull) (fun m =>
  pThen pWs1 (fun _ =>
  pThen (pNum2 31) (fun d =>
  pThen (pLit ',') (fun _ =>
  pThen pWs1 (fun _ cs5 =>
    (pYear4 cs5).map (fun yr => (PDate.mk yr.1 m d, yr.2)))))))

def fmtBdY (cs : List Char) : Option PDate :=
  validOrNone (firstFullMatch (fmtBdYCands cs))

/-- Candidates of `'%b %d, %Y'` (e.g. `Jan 1, 2023`). -/
def fmtbdYCands : List Char → List (PDate × List Char) :=
  pThen (pMonthFrom monthNamesAbbr) (fun m =>
  pThen pWs1 (fun _ =>
  pThen (pNum2 31) (fun d =>
  pThen (pLit ',') (fun _ =>
  pThen pWs1 (fun _ cs5 =>
    (pYear4 cs5).map (fun yr => (PDate.mk yr.1 m d, yr.2)))))))

def fmtbdY (cs : List Char) : Option PDate :=
  validOrNone (firstFullMatch (fmtbdYCands cs))

/-- Candidates of `'%m/%d/%Y'` (e.g. `01/01/2023`). -/
def fmtMDYslashCands : List Char → List (PDate × List Char) :=
  pThen (pNum2 12) (fun m =>
  pThen (pLit '/') (fun _ =>
  pThen (pNum2 31) (fun d =>
  pThen (pLit '/') (fun _ cs4 =>
    (pYear4 cs4).map (fun yr => (PDate.mk yr.1 m d, yr.2))))))

def fmtMDYslash (cs : List Char) : Option PDate :=
  validOrNone (firstFullMatch (fmtMDYslashCands cs))

/-- Candidates of `'%Y-%m-%d'` (e.g. `2023-01-01`). -/
def fmtYMDCands : List Char → List (PDate × List Char) :=
  pThen pYear4 (fun y =>
  pThen (pLit '-') (fun _ =>
  pThen (pNum2 12) (fun m =>
  pThen (pLit '-') (fun _ cs4 =>
    (pNum2 31 cs4).map (fun dd => (PDate.mk y m dd.1, dd.2))))))

def fmtYMD (cs : List Char) : Option PDate :=
  validOrNone (firstFullMatch (fmtYMDCands cs))

/-- Candidates of `'%m-%d-%Y'` (e.g. `01-01-2023`). -/
def fmtMDYdashCands : List Char → List (PDate × List Char) :=
  pThen (pNum2 12) (fun m =>
  pThen (pLit '-') (fun _ =>
  pThen (pNum2 31) (fun d =>
  pThen (pLit '-') (fun _ cs4 =>
    (pYear4 cs4).map (fun yr => (PDate.mk yr.1 m d, yr.2))))))

def fmtMDYdash (cs : List Char) : Option PDate :=
  validOrNone (firstFullMatch (fmtMDYdashCands cs))

/-- Candidates of `'%d %B %Y'` (e.g. `1 January 2023`). -/
def fmtDBYCands : List Char → List (PDate × List Char) :=
  pThen (pNum2 31) (fun d =>
  pThen pWs1 (fun _ =>
  pThen (pMonthFrom monthNamesFull) (fun m =>
  pThen pWs1 (fun _ cs4 =>
    (pYear4 cs4).map (fun yr => (PDate.mk yr.1 m d, yr.2))))))

def fmtDBY (cs : List Char) : Option PDate :=
  validOrNone (firstFullMatch (fmtDBYCands cs))

/-- Candidates of `'%d %b %Y'` (e.g. `1 Jan 2023`). -/
def fmtDbYCands : List Char → List (PDate × List Char) :=
  pThen (pNum2 31) (fun d =>
  pThen pWs1 (fun _ =>
  pThen (pMonthFrom monthNamesAbbr) (fun m =>
  pThen pWs1 (fun _ cs4 =>
    (pYear4 cs4).map (fun yr => (PDate.mk yr.1 m d, yr.2))))))

def fmtDbY (cs : List Char) : Option PDate :=
  validOrNone (firstFullMatch (fmtDbYCands cs))

/-- The first seven date formats of line 95-105, in order. The 8th and 9th
entries of the Python list are the invalid `'%B %d-%d, %Y'` / `'%b %d-%d, %Y'`
templates whose compilation raises `re.error`. -/
def dateFormatsHead : List (List Char → Option PDate) :=
  [fmtBdY, fmtbdY, fmtMDYslash, fmtYMD, fmtMDYdash, fmtDBY, fmtDbY]

/-- Try the format list in order; first success wins. -/
def tryFormats (fs : List (List Char → Option PDate)) (cs : List Char) :
    Option PDate :=
  match fs with
  | [] => none
  | f :: rest =>
    match f cs with
    | some dt => some dt
    | none => tryFormats rest cs

/-- Zero-padded two-digit rendering (`strftime` `%m` / `%d`). -/
def pad2 (n : Nat) : List Char :=
  if n < 10 then ['0', digitCharOf n] else natDigits n

/-- `parsed_date.strftime('%Y-%m-%d')` (glibc renders `%Y` without padding;
years here are validated to `1 ≤ y ≤ 9999`). -/
def isoOf (dt : PDate) : String :=
  String.mk (natDigits dt.y ++ '-' :: pad2 dt.m ++ '-' :: pad2 dt.d)

/-- `parse_date(date_string)` (lines 83-162). `.ok none` models `return None`
for a falsy input; `.ok (some s)` models returning the string `s`; the error
case is the uncaught `re.error` raised when compiling the 8th format after
the first seven formats all failed (see the section comment). -/
def parse_date (dateString : String) : Except PyError (Option String) :=
  if dateString = "" then .ok none
  else
    let t := pyStrip dateString
    if datePlaceholders.contains (pyLower t) then .ok (some "TBD")
    else
      match tryFormats dateFormatsHead t.data with
      | some dt => .ok (some (isoOf dt))
      | none => .error (.reError "redefinition of group name d")

/-- The canonical zero-padded `YYYY-MM-DD` rendering of `(y, m, d)`, used to
state idempotence on ISO-formatted inputs. -/
def isoStr (y m d : Nat) : String :=
  String.mk [digitCharOf (y / 1000), digitCharOf (y / 100 % 10),
             digitCharOf (y / 10 % 10), digitCharOf (y % 10), '-',
             digitCharOf (m / 10), digitCharOf (m % 10), '-',
             digitCharOf (d / 10), digitCharOf (d % 10)]

/-! ## JSON payloads and the cache files (lines 358-390)

`save_to_cache` writes `json.dump(data, f)` and `load_from_cache` reads
`json.load(f)`. The cached payloads are the record lists produced by the
scraper: JSON arrays of flat objects whose values are strings, booleans,
integers or `null`. The serializer below follows `json.dump`'s defaults
(separators `", "` / `": "`, `ensure_ascii=True` with `\uXXXX` escapes and
surrogate pairs); the reader is the matching recursive-descent parser, with
`none` modelling `json.JSONDecodeError`. -/

/-- A JSON-serializable field value of a cached tournament record. -/
inductive JField
  | null
  | bool (b : Bool)
  | int (n : Int)
  | str (s : String)
deriving DecidableEq, Repr

/-- A record: a flat JSON object (ordered key/value pairs, as a Python dict). -/
abbrev JRecord := List (String × JField)

/-- A cached payload: the ordered record list. -/
abbrev Payload := List JRecord

def lbrace : Char := '\x7b'

def rbrace : Char := '\x7d'

/-- Four lowercase hex digits of `n % 65536` (the `\uXXXX` payload). -/
def hex4 (n : Nat) : List Char :=
  [hexDigitLC (n / 4096 % 16), hexDigitLC (n / 256 % 16), hexDigitLC (n / 16 % 16),
   hexDigitLC (n % 16)]

/-- `json.dump`'s escape of one character (`ensure_ascii=True`). -/
def escapeChar (c : Char) : List Char :=
  if c = '"' then ['\\', '"']
  else if c = '\\' then ['\\', '\\']
  else if c = '\x08' then ['\\', 'b']
  else if c = '\x0c' then ['\\', 'f']
  else if c = '\n' then ['\\', 'n']
  else if c = '\r' then ['\\', 'r']
  else if c = '\t' then ['\\', 't']
  else if 0x20 ≤ c.toNat ∧ c.toNat ≤ 0x7e then [c]
  else if c.toNat < 0x10000 then '\\' :: 'u' :: hex4 c.toNat
  else
    ('\\' :: 'u' :: hex4 (0xd800 + (c.toNat - 0x10000) / 0x400)) ++
    ('\\' :: 'u' :: hex4 (0xdc00 + (c.toNat - 0x10000) % 0x400))

/-- The escaped body of a string literal. -/
def escString (s : String) : List Char :=
  (s.data.map escapeChar).flatten

/-- A JSON string literal. -/
def dumpString (s : String) : List Char :=
  '"' :: escString s ++ ['"']

/-- Python `repr` of an `int`. -/
def intDigits (n : Int) : List Char :=
  if n < 0 then '-' :: natDigits n.natAbs else natDigits n.natAbs

/-- One field value, as `json.dump` renders it. -/
def dumpField : JField → List Char
  | .null => "null".data
  | .bool true => "true".data
  | .bool false => "false".data
  | .int n => intDigits n
  | .str s => dumpString s

/-- Join with a separator (the `", "` between JSON items). -/
def joinSep (sep : List Char) : List (List Char) → List Char
  | [] => []
  | [x] => x
  | x :: y :: xs => x ++ sep ++ joinSep sep (y :: xs)

/-- One `"key": value` member. -/
def dumpPair (p : String × JField) : List Char :=
  dumpString p.1 ++ ':' :: ' ' :: dumpField p.2

/-- One record object. -/
def dumpRecordChars (r : JRecord) : List Char :=
  lbrace :: joinSep [',', ' '] (r.map dumpPair) ++ [rbrace]

/-- The whole payload array, exactly as `json.dump(data, f)` writes it. -/
def dumpPayloadChars (rs : Payload) : List Char :=
  '[' :: joinSep [',', ' '] (rs.map dumpRecordChars) ++ [']']

/-- Value of a lowercase/uppercase hex digit. -/
def hexVal (c : Char) : Option Nat :=
  if '0' ≤ c ∧ c ≤ '9' then some (c.toNat - 48)
  else if 'a' ≤ c ∧ c ≤ 'f' then some (c.toNat - 87)
  else if 'A' ≤ c ∧ c ≤ 'F' then some (c.toNat - 55)
  else none

/-- The named escapes accepted after a backslash. -/
def namedEscape (e : Char) : Option Char :=
  if e = '"' then some '"'
  else if e = '\\' then some '\\'
  else if e = '/' then some '/'
  else if e = 'b' then some '\x08'
  else if e = 'f' then some '\x0c'
  else if e = 'n' then some '\n'
  else if e = 'r' then some '\r'
  else if e = 't' then some '\t'
  else none

/-- Parse the body of a string literal up to the closing quote, decoding
escapes and surrogate pairs. A lone surrogate escape is rejected. `fuel`
bounds the recursion depth; every call site passes the input length plus one,
which suffices because each step consumes at least one input character. -/
def parseStringBody : Nat → List Char → Option (List Char × List Char)
  | 0, _ => none
  | _ + 1, [] => none
  | fuel + 1, c :: rest =>
    if c = '"' then some ([], rest)
    else if c = '\\' then
      match rest with
      | [] => none
      | 'u' :: h1 :: h2 :: h3 :: h4 :: r3 =>
        match hexVal h1, hexVal h2, hexVal h3, hexVal h4 with
        | some v1, some v2, some v3, some v4 =>
          let n := v1 * 4096 + v2 * 256 + v3 * 16 + v4
          if 0xd800 ≤ n ∧ n ≤ 0xdbff then
            match r3 with
            | '\\' :: 'u' :: g1 :: g2 :: g3 :: g4 :: r5 =>
              match hexVal g1, hexVal g2, hexVal g3, hexVal g4 with
              | some w1, some w2, some w3, some w4 =>
                let k := w1 * 4096 + w2 * 256 + w3 * 16 + w4
                if 0xdc00 ≤ k ∧ k ≤ 0xdfff then
                  match parseStringBody fuel r5 with
                  | some (s, r6) =>
                    some (Char.ofNat (0x10000 + (n - 0xd800) * 0x400 + (k - 0xdc00)) :: s, r6)
                  | none => none
                else none
              | _, _, _, _ => none
            | _ => none
          else if 0xdc00 ≤ n ∧ n ≤ 0xdfff then none
          else
            match parseStringBody fuel r3 with
            | some (s, r4) => some (Char.ofNat n :: s, r4)
            | none => none
        | _, _, _, _ => none
      | e :: r2 =>
        match namedEscape e with
        | some c2 =>
          match parseStringBody fuel r2 with
          | some (s, r3) => some (c2 :: s, r3)
          | none => none
        | none => none
    else
      match parseStringBody fuel rest with
      | some (s, r) => some (c :: s, r)
      | none => none

/-- Numeric value of a digit run. -/
def digitsToNat (ds : List Char) : Nat :=
  ds.foldl (fun a c => a * 10 + (c.toNat - 48)) 0

/-- Parse a non-empty digit run. -/
def parseNatChars (cs : List Char) : Option (Nat × List Char) :=
  let ds := cs.takeWhile Char.isDigit
  if ds.isEmpty then none else some (digitsToNat ds, cs.drop ds.length)

/-- Parse one field value (dispatch on the first character, as the scanner
of `json.load` does: literals, a string, or a number). -/
def parseFieldVal (cs : List Char) : Option (JField × List Char) :=
  if strHasPrefix "null".data cs then some (.null, cs.drop 4)
  else if strHasPrefix "true".data cs then some (.bool true, cs.drop 4)
  else if strHasPrefix "false".data cs then some (.bool false, cs.drop 5)
  else
    match cs with
    | [] => none
    | c :: rest =>
      if c = '"' then
        match parseStringBody (rest.length + 1) rest with
        | some (s, r) => some (.str (String.mk s), r)
        | none => none
      else if c = '-' then
        match parseNatChars rest with
        | some (n, r) => some (.int (-(n : Int)), r)
        | none => none
      else
        match parseNatChars cs with
        | some (n, r) => some (.int (n : Int), r)
        | none => none

/-- Skip blanks (the writer only emits single spaces after `,` and `:`). -/
def skipSpaces (cs : List Char) : List Char :=
  cs.dropWhile (fun c => c = ' ')

/-- Parse the members of an object, consuming the closing brace.
`fuel` bounds the number of members. -/
def parsePairs : Nat → List Char → Option (JRecord × List Char)
  | 0, _ => none
  | fuel + 1, cs =>
    match cs with
    | c0 :: rest =>
      if c0 = '"' then
        match parseStringBody (rest.length + 1) rest with
        | some (k, r1) =>
          match r1 with
          | c1 :: r2 =>
            if c1 = ':' then
              match parseFieldVal (skipSpaces r2) with
              | some (v, r4) =>
                match r4 with
                | c2 :: r5 =>
                  if c2 = rbrace then some ([(String.mk k, v)], r5)
                  else if c2 = ',' then
                    match parsePairs fuel (skipSpaces r5) with
                    | some (ps, r6) => some ((String.mk k, v) :: ps, r6)
                    | none => none
                  else none
                | [] => none
              | none => none
            else none
          | [] => none
        | none => none
      else none
    | [] => none

/-- Parse one record object (consuming its braces). -/
def parseRecordChars (cs : List Char) : Option (JRecord × List Char) :=
  match cs with
  | c :: rest =>
    if c = lbrace then
      match rest with
      | c2 :: r2 =>
        if c2 = rbrace then some ([], r2)
        else parsePairs rest.length (skipSpaces rest)
      | [] => none
    else none
  | [] => none

/-- Parse the comma-separated records of the array, consuming `]`. -/
def parseRecsList : Nat → List Char → Option (Payload × List Char)
  | 0, _ => none
  | fuel + 1, cs =>
    match parseRecordChars cs with
    | some (r, r1) =>
      match r1 with
      | c :: r2 =>
        if c = ']' then some ([r], r2)
        else if c = ',' then
          match parseRecsList fuel (skipSpaces r2) with
          | some (rs, r3) => some (r :: rs, r3)
          | none => none
        else none
      | [] => none
    | none => none

/-- `json.load` on a cache file: parse a full payload, requiring the input to
be exhausted. `none` models `json.JSONDecodeError`. -/
def parsePayloadChars (cs : List Char) : Option Payload :=
  match cs with
  | c0 :: rest =>
    if c0 = '[' then
      match rest with
      | c1 :: r2 =>
        if c1 = ']' then (if r2.isEmpty then some [] else none)
        else
          match parseRecsList rest.length (skipSpaces rest) with
          | some (rs, r) => if r.isEmpty then some rs else none
          | none => none
      | [] => none
    else none
  | [] => none

/-! ## The cache store (`save_to_cache` / `load_from_cache`, lines 358-390) -/

/-- The `.cache` directory: file name ↦ (contents, mtime). -/
structure CacheState where
  files : List (String × String × Nat)
deriving DecidableEq, Repr

/-- Write (create or overwrite) a file, setting its mtime. -/
def insertFile : List (String × String × Nat) → String → String → Nat →
    List (String × String × Nat)
  | [], name, content, mtime => [(name, content, mtime)]
  | (n, c, t) :: rest, name, content, mtime =>
    if n = name then (name, content, mtime) :: rest
    else (n, c, t) :: insertFile rest name content mtime

/-- Look a file up by name. -/
def lookupFile : List (String × String × Nat) → String → Option (String × Nat)
  | [], _ => none
  | (n, c, t) :: rest, name => if n = name then some (c, t) else lookupFile rest name

/-- `save_to_cache(key, data)` (lines 358-368): writes `json.dump(data)` to
`.cache/{key}.json`; `now` is the write time (the file's resulting mtime). -/
def save_to_cache (key : String) (data : Payload) (now : Nat) (st : CacheState) :
    CacheState :=
  ⟨insertFile st.files (key ++ ".json") (String.mk (dumpPayloadChars data)) now⟩

/-- `load_from_cache(key, max_age_hours=24)` (lines 371-390): returns `None`
when the file is missing or older than the TTL; otherwise `json.load`s it,
with `(json.JSONDecodeError, IOError)` caught and turned into `None`. The
second component is the cache state after the call: the function never
writes or removes a file, so it is returned unchanged on every path. -/
def load_from_cache (key : String) (maxAgeHours : Nat) (now : Nat)
    (st : CacheState) : Option Payload × CacheState :=
  match lookupFile st.files (key ++ ".json") with
  | none => (none, st)
  | some (content, mtime) =>
    if now - mtime > maxAgeHours * 3600 then (none, st)
    else
      match parsePayloadChars content.data with
      | some v => (some v, st)
      | none => (none, st)

/-! ## Concrete inputs used by counterexamples and witnesses -/

/-- A tournament record as the generic item parser would build it, before the
ID is attached: name and date present, no location, no detail URL. -/
def sampleBase : Tournament :=
  { name := some "Spring Open Championship", date := some "5/15/2025",
    golfCourseName := none, location := none,
    tournamentType := some "Championship", isQualifier := false,
    hasQualifiers := none, detailURL := none, eligibility := none,
    tournamentID := none, qualifierCount := none }

/-- The record after line 846 (`tournament_data['Tournament ID'] =
generate_tournament_id(tournament_data)`). -/
def sampleTournament : Tournament :=
  { sampleBase with tournamentID := some (generate_tournament_id sampleBase) }

/-- The same tournament re-harvested with differently-populated optional
fields (same name, date, location). -/
def sampleTournament2 : Tournament :=
  { name := some "Spring Open Championship", date := some "5/15/2025",
    golfCourseName := some "Pine Valley GC", location := none,
    tournamentType := none, isQualifier := false, hasQualifiers := none,
    detailURL := none, eligibility := none,
    tournamentID := some (generate_tournament_id sampleBase),
    qualifierCount := none }

/-- Item parsers for a page on which every candidate element parses to
`sampleTournament` (two different DOM nodes describing one tournament). -/
def sampleParsers : ItemParsers Nat :=
  { fsga := fun _ => none, bluegolf := fun _ => none,
    generic := fun _ => some sampleTournament }

/-- Item parsers over a trivial element type (for the golfgenius page, the
parsers are never reached: the dispatch raises first). -/
def unitParsers : ItemParsers Unit :=
  { fsga := fun _ => none, bluegolf := fun _ => none, generic := fun _ => none }

/-- No detail-page enrichment (`get_page_html` returns `None`). -/
def noEnrich : String → Option EnrichResult := fun _ => none

/-- An environment whose every fetch attempt succeeds. -/
def alwaysOk : Nat → String → FetchOutcome := fun _ _ => .success "<html></html>"

/-- A `soup.select` in which two of the generic selectors match (disjoint)
element sets: `table tr` matches element `10`, `li` matches element `20`. -/
def twoSel : String → List Nat :=
  fun s => if s = "table tr" then [10] else if s = "li" then [20] else []

/-- A record whose name carries a qualifier keyword. -/
def qualSample : Tournament :=
  { name := some "U.S. Open Local Qualifier", date := some "5/15/2025",
    golfCourseName := none, location := none, tournamentType := none,
    isQualifier := false, hasQualifiers := none, detailURL := none,
    eligibility := none, tournamentID := none, qualifierCount := none }

/-- A cache directory holding one entry whose payload is not valid JSON. -/
def corruptState : CacheState := ⟨[("k.json", "corrupt", 100)]⟩

/-! # Theorems -/

/-! ## General helper lemmas -/

theorem emptyEqNil {α : Type} {l : List α} (h : l.isEmpty = true) : l = [] := by
  cases l with
  | nil => rfl
  | cons x xs => simp [List.isEmpty] at h

theorem exceptBindOk {ε α β : Type} (x : α) (f : α → Except ε β) :
    ((Except.ok x : Except ε α) >>= f) = f x := rfl

theorem exceptPure {ε α : Type} (x : α) :
    (pure x : Except ε α) = Except.ok x := rfl

theorem foldl_append_flatten {α : Type} (select : String → List α) :
    ∀ (selectors : List String) (acc : List α),
      selectors.foldl (fun a sel => a ++ select sel) acc
        = acc ++ (selectors.map select).flatten := by
  intro selectors
  induction selectors with
  | nil => intro acc; simp
  | cons s rest ih => intro acc; simp [ih]

theorem get_page_html_go_mem (respond : Nat → String → FetchOutcome) (url : String) :
    ∀ (fuel attempt : Nat) (trace : List String) (u : String),
      (∀ v ∈ trace, v = url) →
      u ∈ (get_page_html_go respond url fuel attempt trace).2 → u = url := by
  intro fuel
  induction fuel with
  | zero => intro attempt trace u htr hu; exact htr u hu
  | succ f ih =>
    intro attempt trace u htr hu
    have htr2 : ∀ v ∈ trace ++ [url], v = url := by
      intro v hv
      rcases List.mem_append.mp hv with h | h
      · exact htr v h
      · simpa using h
    simp only [get_page_html_go] at hu
    cases hr : respond attempt url with
    | success body =>
      rw [hr] at hu
      exact htr2 u hu
    | failure =>
      rw [hr] at hu
      by_cases hf : f = 0
      · rw [if_pos hf] at hu
        exact htr2 u hu
      · rw [if_neg hf] at hu
        exact ih (attempt + 1) (trace ++ [url]) u htr2 hu

theorem setQualifierFields_detailURL (t : Tournament) :
    (setQualifierFields t).detailURL = t.detailURL := by
  unfold setQualifierFields
  by_cases h : is_qualifier_tournament t.name
  · simp [h]
  · simp [h]

theorem processElementsFrom_generic {Elem : Type} (P : ItemParsers Elem)
    (detailInfo : String → Option EnrichResult) (maxDetails : Option Nat)
    (h : ∀ e t, P.generic e = some t → t.detailURL = none) :
    ∀ (elems : List Elem) (i : Nat) (ts : List Tournament),
      processElementsFrom P .generic detailInfo maxDetails i elems ts =
        .ok (ts ++ (elems.filterMap P.generic).map setQualifierFields) := by
  intro elems
  induction elems with
  | nil => intro i ts; simp [processElementsFrom]
  | cons e rest ih =>
    intro i ts
    cases hp : P.generic e with
    | none =>
      have hpe : processElement P .generic detailInfo maxDetails i e ts = .ok ts := by
        simp only [processElement, dispatchItemParse, hp, exceptBindOk, exceptPure]
      simp only [processElementsFrom, hpe, exceptBindOk]
      rw [ih]
      simp [hp]
    | some t =>
      have hurl : pyTruthyStr (setQualifierFields t).detailURL = false := by
        rw [setQualifierFields_detailURL, h e t hp]
        rfl
      have hpe : processElement P .generic detailInfo maxDetails i e ts =
          .ok (ts ++ [setQualifierFields t]) := by
        simp only [processElement, dispatchItemParse, hp, exceptBindOk, hurl,
          Bool.false_and, exceptPure]
        simp
      simp only [processElementsFrom, hpe, exceptBindOk]
      rw [ih]
      simp [hp, List.append_assoc]

theorem lookupFile_insertFile (fs : List (String × String × Nat))
    (name content : String) (mtime : Nat) :
    lookupFile (insertFile fs name content mtime) name = some (content, mtime) := by
  induction fs with
  | nil => simp [insertFile, lookupFile]
  | cons f rest ih =>
    obtain ⟨n, c, t⟩ := f
    by_cases h : n = name
    · simp [insertFile, lookupFile, h]
    · simp [insertFile, lookupFile, h, ih]

theorem byteHexFlatten_length (l : List Nat) :
    ((l.map byteHex).flatten).length = 2 * l.length := by
  induction l with
  | nil => simp
  | cons b rest ih => simp [byteHex, ih]; omega

theorem leBytes_length (n count : Nat) : (leBytes n count).length = count := by
  simp [leBytes]

theorem md5Hex_length (msg : List Nat) : (md5Hex msg).length = 32 := by
  unfold md5Hex
  split
  show (String.mk _).length = 32
  show (_ : List Char).length = 32
  rw [byteHexFlatten_length]
  simp [leBytes_length]

theorem strTake_length (s : String) (n : Nat) :
    (strTake s n).length = min n s.length := by
  show (s.data.take n).length = min n s.data.length
  exact List.length_take n s.data

/-! ## JSON serialization roundtrip lemmas -/

theorem hexVal_hexDigitLC : ∀ k, k < 16 → hexVal (hexDigitLC k) = some k := by decide

theorem char_valid_nat (c : Char) :
    c.toNat < 55296 ∨ (57343 < c.toNat ∧ c.toNat < 1114112) := c.valid

theorem digitCharOf_toNat : ∀ k, k < 10 → (digitCharOf k).toNat = 48 + k := by decide

theorem digitCharOf_isDigit : ∀ k, k < 10 → (digitCharOf k).isDigit = true := by decide

theorem isDigit_toNat {c : Char} (h : c.isDigit = true) :
    48 ≤ c.toNat ∧ c.toNat ≤ 57 := by
  simpa [Char.isDigit, decide_eq_true_eq] using h

theorem beq_false_of_ne {c d : Char} (h : ¬c = d) : (c == d) = false := by
  simp [h]

theorem psb_quote (fuel : Nat) (rest : List Char) :
    parseStringBody (fuel + 1) ('"' :: rest) = some ([], rest) := rfl

theorem psb_esc_quote (fuel : Nat) (rest : List Char) :
    parseStringBody (fuel + 1) ('\\' :: '"' :: rest) =
      match parseStringBody fuel rest with
      | some (s, r) => some ('"' :: s, r)
      | none => none := rfl

theorem psb_esc_back (fuel : Nat) (rest : List Char) :
    parseStringBody (fuel + 1) ('\\' :: '\\' :: rest) =
      match parseStringBody fuel rest with
      | some (s, r) => some ('\\' :: s, r)
      | none => none := rfl

theorem psb_esc_b (fuel : Nat) (rest : List Char) :
    parseStringBody (fuel + 1) ('\\' :: 'b' :: rest) =
      match parseStringBody fuel rest with
      | some (s, r) => some ('\x08' :: s, r)
      | none => none := rfl

theorem psb_esc_f (fuel : Nat) (rest : List Char) :
    parseStringBody (fuel + 1) ('\\' :: 'f' :: rest) =
      match parseStringBody fuel rest with
      | some (s, r) => some ('\x0c' :: s, r)
      | none => none := rfl

theorem psb_esc_n (fuel : Nat) (rest : List Char) :
    parseStringBody (fuel + 1) ('\\' :: 'n' :: rest) =
      match parseStringBody fuel rest with
      | some (s, r) => some ('\n' :: s, r)
      | none => none := rfl

theorem psb_esc_r (fuel : Nat) (rest : List Char) :
    parseStringBody (fuel + 1) ('\\' :: 'r' :: rest) =
      match parseStringBody fuel rest with
      | some (s, r) => some ('\r' :: s, r)
      | none => none := rfl

theorem psb_esc_t (fuel : Nat) (rest : List Char) :
    parseStringBody (fuel + 1) ('\\' :: 't' :: rest) =
      match parseStringBody fuel rest with
      | some (s, r) => some ('\t' :: s, r)
      | none => none := rfl

theorem psb_plain (fuel : Nat) (c : Char) (rest : List Char) (h1 : ¬c = '"')
    (h2 : ¬c = '\\') :
    parseStringBody (fuel + 1) (c :: rest) =
      match parseStringBody fuel rest with
      | some (s, r) => some (c :: s, r)
      | none => none := by
  rw [parseStringBody.eq_def]
  simp only [if_neg h1, if_neg h2]

theorem psb_u (fuel : Nat) (a b d e : Char) (v1 v2 v3 v4 : Nat) (rest : List Char)
    (ha : hexVal a = some v1) (hb : hexVal b = some v2) (hd : hexVal d = some v3)
    (he2 : hexVal e = some v4)
    (hns : ¬(55296 ≤ v1 * 4096 + v2 * 256 + v3 * 16 + v4 ∧
      v1 * 4096 + v2 * 256 + v3 * 16 + v4 ≤ 56319))
    (hns2 : ¬(56320 ≤ v1 * 4096 + v2 * 256 + v3 * 16 + v4 ∧
      v1 * 4096 + v2 * 256 + v3 * 16 + v4 ≤ 57343)) :
    parseStringBody (fuel + 1) ('\\' :: 'u' :: a :: b :: d :: e :: rest) =
      match parseStringBody fuel rest with
      | some (s, r) =>
        some (Char.ofNat (v1 * 4096 + v2 * 256 + v3 * 16 + v4) :: s, r)
      | none => none := by
  conv_lhs => rw [parseStringBody]
  simp only [ha, hb, hd, he2]
  rw [if_neg hns, if_neg hns2]
  simp

theorem psb_u_pair (fuel : Nat) (a b d e a2 b2 d2 e2 : Char)
    (v1 v2 v3 v4 w1 w2 w3 w4 : Nat) (rest : List Char)
    (ha : hexVal a = some v1) (hb : hexVal b = some v2) (hd : hexVal d = some v3)
    (he' : hexVal e = some v4) (ha2 : hexVal a2 = some w1) (hb2 : hexVal b2 = some w2)
    (hd2 : hexVal d2 = some w3) (he2 : hexVal e2 = some w4)
    (hhi : 55296 ≤ v1 * 4096 + v2 * 256 + v3 * 16 + v4 ∧
      v1 * 4096 + v2 * 256 + v3 * 16 + v4 ≤ 56319)
    (hlo : 56320 ≤ w1 * 4096 + w2 * 256 + w3 * 16 + w4 ∧
      w1 * 4096 + w2 * 256 + w3 * 16 + w4 ≤ 57343) :
    parseStringBody (fuel + 1)
        ('\\' :: 'u' :: a :: b :: d :: e :: '\\' :: 'u' :: a2 :: b2 :: d2 :: e2 :: rest) =
      match parseStringBody fuel rest with
      | some (s, r) =>
        some (Char.ofNat (65536 + (v1 * 4096 + v2 * 256 + v3 * 16 + v4 - 55296) * 1024
          + (w1 * 4096 + w2 * 256 + w3 * 16 + w4 - 56320)) :: s, r)
      | none => none := by
  conv_lhs => rw [parseStringBody]
  simp only [ha, hb, hd, he', ha2, hb2, hd2, he2]
  rw [if_pos hhi, if_pos hlo]
  simp

theorem parseStringBody_escape (l : List Char) :
    ∀ (fuel : Nat) (rest : List Char), l.length + 1 ≤ fuel →
      parseStringBody fuel ((l.map escapeChar).flatten ++ '"' :: rest) =
        some (l, rest) := by
  induction l with
  | nil =>
    intro fuel rest hf
    obtain ⟨f, rfl⟩ : ∃ f, fuel = f + 1 := ⟨fuel - 1, by omega⟩
    simp only [List.map_nil, List.flatten_nil, List.nil_append]
    exact psb_quote f rest
  | cons c cs ih =>
    intro fuel rest hf
    obtain ⟨f, rfl⟩ : ∃ f, fuel = f + 1 := ⟨fuel - 1, by omega⟩
    have hf2 : cs.length + 1 ≤ f := by
      simp only [List.length_cons] at hf
      omega
    have hstep : (((c :: cs).map escapeChar).flatten ++ '"' :: rest)
        = escapeChar c ++ ((cs.map escapeChar).flatten ++ '"' :: rest) := by
      simp
    rw [hstep]
    by_cases h1 : c = '"'
    · subst h1
      rw [show escapeChar '"' = ['\\', '"'] from rfl]
      simp only [List.cons_append, List.nil_append]
      rw [psb_esc_quote, ih f rest hf2]
    by_cases h2 : c = '\\'
    · subst h2
      rw [show escapeChar '\\' = ['\\', '\\'] from rfl]
      simp only [List.cons_append, List.nil_append]
      rw [psb_esc_back, ih f rest hf2]
    by_cases h3 : c = '\x08'
    · subst h3
      rw [show escapeChar '\x08' = ['\\', 'b'] from rfl]
      simp only [List.cons_append, List.nil_append]
      rw [psb_esc_b, ih f rest hf2]
    by_cases h4 : c = '\x0c'
    · subst h4
      rw [show escapeChar '\x0c' = ['\\', 'f'] from rfl]
      simp only [List.cons_append, List.nil_append]
      rw [psb_esc_f, ih f rest hf2]
    by_cases h5 : c = '\n'
    · subst h5
      rw [show escapeChar '\n' = ['\\', 'n'] from rfl]
      simp only [List.cons_append, List.nil_append]
      rw [psb_esc_n, ih f rest hf2]
    by_cases h6 : c = '\r'
    · subst h6
      rw [show escapeChar '\r' = ['\\', 'r'] from rfl]
      simp only [List.cons_append, List.nil_append]
      rw [psb_esc_r, ih f rest hf2]
    by_cases h7 : c = '\t'
    · subst h7
      rw [show escapeChar '\t' = ['\\', 't'] from rfl]
      simp only [List.cons_append, List.nil_append]
      rw [psb_esc_t, ih f rest hf2]
    by_cases h8 : 0x20 ≤ c.toNat ∧ c.toNat ≤ 0x7e
    · have he : escapeChar c = [c] := by
        simp [escapeChar, h1, h2, h3, h4, h5, h6, h7, h8]
      rw [he]
      simp only [List.cons_append, List.nil_append]
      rw [psb_plain f c _ h1 h2, ih f rest hf2]
    by_cases h9 : c.toNat < 0x10000
    · have he : escapeChar c = '\\' :: 'u' :: hex4 c.toNat := by
        simp [escapeChar, h1, h2, h3, h4, h5, h6, h7, h8, h9]
      rw [he]
      have hval := char_valid_nat c
      have hv1 := hexVal_hexDigitLC (c.toNat / 4096 % 16) (by omega)
      have hv2 := hexVal_hexDigitLC (c.toNat / 256 % 16) (by omega)
      have hv3 := hexVal_hexDigitLC (c.toNat / 16 % 16) (by omega)
      have hv4 := hexVal_hexDigitLC (c.toNat % 16) (by omega)
      have hn : c.toNat / 4096 % 16 * 4096 + c.toNat / 256 % 16 * 256
          + c.toNat / 16 % 16 * 16 + c.toNat % 16 = c.toNat := by omega
      have hs1 : ¬(55296 ≤ c.toNat / 4096 % 16 * 4096 + c.toNat / 256 % 16 * 256
          + c.toNat / 16 % 16 * 16 + c.toNat % 16 ∧
          c.toNat / 4096 % 16 * 4096 + c.toNat / 256 % 16 * 256
          + c.toNat / 16 % 16 * 16 + c.toNat % 16 ≤ 56319) := by
        rw [hn]; omega
      have hs2 : ¬(56320 ≤ c.toNat / 4096 % 16 * 4096 + c.toNat / 256 % 16 * 256
          + c.toNat / 16 % 16 * 16 + c.toNat % 16 ∧
          c.toNat / 4096 % 16 * 4096 + c.toNat / 256 % 16 * 256
          + c.toNat / 16 % 16 * 16 + c.toNat % 16 ≤ 57343) := by
        rw [hn]; omega
      simp only [hex4, List.cons_append, List.nil_append]
      rw [psb_u f _ _ _ _ _ _ _ _ _ hv1 hv2 hv3 hv4 hs1 hs2, ih f rest hf2, hn,
        Char.ofNat_toNat]
    · have he : escapeChar c =
          ('\\' :: 'u' :: hex4 (0xd800 + (c.toNat - 0x10000) / 0x400)) ++
          ('\\' :: 'u' :: hex4 (0xdc00 + (c.toNat - 0x10000) % 0x400)) := by
        simp [escapeChar, h1, h2, h3, h4, h5, h6, h7, h8, h9]
      rw [he]
      have hval := char_valid_nat c
      have hmod : (c.toNat - 0x10000) % 0x400 < 0x400 :=
        Nat.mod_lt _ (by omega)
      have hdiv : (c.toNat - 0x10000) / 0x400 < 0x400 := by
        have : c.toNat - 0x10000 < 0x100000 := by omega
        omega
      have hv1 := hexVal_hexDigitLC ((0xd800 + (c.toNat - 0x10000) / 0x400) / 4096 % 16) (by omega)
      have hv2 := hexVal_hexDigitLC ((0xd800 + (c.toNat - 0x10000) / 0x400) / 256 % 16) (by omega)
      have hv3 := hexVal_hexDigitLC ((0xd800 + (c.toNat - 0x10000) / 0x400) / 16 % 16) (by omega)
      have hv4 := hexVal_hexDigitLC ((0xd800 + (c.toNat - 0x10000) / 0x400) % 16) (by omega)
      have hw1 := hexVal_hexDigitLC ((0xdc00 + (c.toNat - 0x10000) % 0x400) / 4096 % 16) (by omega)
      have hw2 := hexVal_hexDigitLC ((0xdc00 + (c.toNat - 0x10000) % 0x400) / 256 % 16) (by omega)
      have hw3 := hexVal_hexDigitLC ((0xdc00 + (c.toNat - 0x10000) % 0x400) / 16 % 16) (by omega)
      have hw4 := hexVal_hexDigitLC ((0xdc00 + (c.toNat - 0x10000) % 0x400) % 16) (by omega)
      have hnhi : (0xd800 + (c.toNat - 0x10000) / 0x400) / 4096 % 16 * 4096
          + (0xd800 + (c.toNat - 0x10000) / 0x400) / 256 % 16 * 256
          + (0xd800 + (c.toNat - 0x10000) / 0x400) / 16 % 16 * 16
          + (0xd800 + (c.toNat - 0x10000) / 0x400) % 16
          = 0xd800 + (c.toNat - 0x10000) / 0x400 := by omega
      have hnlo : (0xdc00 + (c.toNat - 0x10000) % 0x400) / 4096 % 16 * 4096
          + (0xdc00 + (c.toNat - 0x10000) % 0x400) / 256 % 16 * 256
          + (0xdc00 + (c.toNat - 0x10000) % 0x400) / 16 % 16 * 16
          + (0xdc00 + (c.toNat - 0x10000) % 0x400) % 16
          = 0xdc00 + (c.toNat - 0x10000) % 0x400 := by omega
      have hishi : 55296 ≤ 0xd800 + (c.toNat - 0x10000) / 0x400 ∧
          0xd800 + (c.toNat - 0x10000) / 0x400 ≤ 56319 := by omega
      have hislo : 56320 ≤ 0xdc00 + (c.toNat - 0x10000) % 0x400 ∧
          0xdc00 + (c.toNat - 0x10000) % 0x400 ≤ 57343 := by omega
      have hcomb : 65536 + (0xd800 + (c.toNat - 0x10000) / 0x400 - 55296) * 1024
          + (0xdc00 + (c.toNat - 0x10000) % 0x400 - 56320) = c.toNat := by
        have h1024 := Nat.div_add_mod (c.toNat - 0x10000) 0x400
        omega
      simp only [hex4, List.cons_append, List.nil_append]
      rw [psb_u_pair f _ _ _ _ _ _ _ _ _ _ _ _ _ _ _ _ _
        hv1 hv2 hv3 hv4 hw1 hw2 hw3 hw4 (by rw [hnhi]; exact hishi) (by rw [hnlo]; exact hislo),
        ih f rest hf2, hnhi, hnlo, hcomb, Char.ofNat_toNat]

theorem digitsToNat_append_single (xs : List Char) (c : Char) :
    digitsToNat (xs ++ [c]) = digitsToNat xs * 10 + (c.toNat - 48) := by
  simp [digitsToNat, List.foldl_append]

theorem natDigits_eq (n : Nat) : natDigits n =
    if n < 10 then [digitCharOf n]
    else natDigits (n / 10) ++ [digitCharOf (n % 10)] := by
  rw [natDigits]
  split
  · rfl
  · rfl

theorem natDigits_props (n : Nat) :
    natDigits n ≠ [] ∧ (∀ c ∈ natDigits n, c.isDigit = true) ∧
      digitsToNat (natDigits n) = n := by
  induction n using Nat.strong_induction_on with
  | _ n ih =>
    by_cases h : n < 10
    · rw [natDigits_eq, if_pos h]
      refine ⟨by simp, ?_, ?_⟩
      · intro c hc
        simp only [List.mem_singleton] at hc
        subst hc
        exact digitCharOf_isDigit n h
      · simp only [digitsToNat, List.foldl_cons, List.foldl_nil]
        rw [digitCharOf_toNat n h]
        omega
    · rw [natDigits_eq, if_neg h]
      obtain ⟨hne, hdig, hval⟩ := ih (n / 10) (by omega)
      refine ⟨by simp [hne], ?_, ?_⟩
      · intro c hc
        rcases List.mem_append.mp hc with h1 | h1
        · exact hdig c h1
        · simp only [List.mem_singleton] at h1
          subst h1
          exact digitCharOf_isDigit _ (by omega)
      · rw [digitsToNat_append_single, hval, digitCharOf_toNat _ (by omega)]
        omega

theorem natDigits_head_digit (n : Nat) :
    ∃ c cs, natDigits n = c :: cs ∧ c.isDigit = true := by
  obtain ⟨hne, hdig, _⟩ := natDigits_props n
  cases hh : natDigits n with
  | nil => exact absurd hh hne
  | cons c cs => exact ⟨c, cs, rfl, hdig c (by rw [hh]; simp)⟩

theorem takeWhile_append_of_all {p : Char → Bool} :
    ∀ (xs ys : List Char), (∀ x ∈ xs, p x = true) →
      (xs ++ ys).takeWhile p = xs ++ ys.takeWhile p := by
  intro xs
  induction xs with
  | nil => intro ys _; simp
  | cons a l ih =>
    intro ys h
    simp only [List.cons_append, List.takeWhile_cons]
    rw [h a (by simp), ih ys (fun x hx => h x (by simp [hx]))]
    simp

theorem parseNatChars_natDigits (n : Nat) (rest : List Char)
    (hr : rest.takeWhile Char.isDigit = []) :
    parseNatChars (natDigits n ++ rest) = some (n, rest) := by
  obtain ⟨hne, hdig, hval⟩ := natDigits_props n
  simp only [parseNatChars]
  rw [takeWhile_append_of_all _ _ hdig, hr, List.append_nil]
  rw [if_neg (by simpa [List.isEmpty_iff] using hne)]
  rw [hval, List.drop_left]

theorem digit_ne_char {c : Char} (hc : c.isDigit = true) (d : Char)
    (hd : d.isDigit = false) : ¬c = d := by
  intro h
  rw [← h, hc] at hd
  simp at hd

theorem strHasPrefix_ne_head (p : Char) (ps : List Char) (c : Char) (cs : List Char)
    (h : ¬p = c) : strHasPrefix (p :: ps) (c :: cs) = false := by
  simp [strHasPrefix, h]

theorem escapeChar_length_pos (c : Char) : 1 ≤ (escapeChar c).length := by
  unfold escapeChar
  repeat' split
  all_goals simp [hex4]

theorem escList_length (l : List Char) :
    l.length ≤ ((l.map escapeChar).flatten).length := by
  induction l with
  | nil => simp
  | cons c cs ih =>
    simp only [List.map_cons, List.flatten_cons, List.length_append, List.length_cons]
    have := escapeChar_length_pos c
    omega

theorem parseFieldVal_dump (v : JField) (rest : List Char)
    (hr : rest.takeWhile Char.isDigit = []) :
    parseFieldVal (dumpField v ++ rest) = some (v, rest) := by
  cases v with
  | null => rfl
  | bool b => cases b <;> rfl
  | str s =>
    have hshape : dumpField (.str s) ++ rest
        = '"' :: ((s.data.map escapeChar).flatten ++ '"' :: rest) := by
      simp [dumpField, dumpString, escString]
    rw [hshape]
    have hn : strHasPrefix "null".data ('"' :: ((s.data.map escapeChar).flatten ++ '"' :: rest)) = false := rfl
    have ht : strHasPrefix "true".data ('"' :: ((s.data.map escapeChar).flatten ++ '"' :: rest)) = false := rfl
    have hf : strHasPrefix "false".data ('"' :: ((s.data.map escapeChar).flatten ++ '"' :: rest)) = false := rfl
    simp only [parseFieldVal, hn, ht, hf, Bool.false_eq_true, if_false, if_true]
    rw [parseStringBody_escape s.data _ rest (by
      have h1 := escList_length s.data
      simp only [List.length_append, List.length_cons]
      omega)]
  | int n =>
    by_cases hneg : n < 0
    · have hd : dumpField (.int n) = '-' :: natDigits n.natAbs := by
        simp [dumpField, intDigits, hneg]
      rw [hd]
      have h1 : strHasPrefix "null".data ('-' :: (natDigits n.natAbs ++ rest)) = false := rfl
      have h2 : strHasPrefix "true".data ('-' :: (natDigits n.natAbs ++ rest)) = false := rfl
      have h3 : strHasPrefix "false".data ('-' :: (natDigits n.natAbs ++ rest)) = false := rfl
      have hshape : ('-' :: natDigits n.natAbs) ++ rest = '-' :: (natDigits n.natAbs ++ rest) := by
        simp
      rw [hshape]
      simp only [parseFieldVal, h1, h2, h3, Bool.false_eq_true, if_false, if_true]
      rw [parseNatChars_natDigits _ _ hr]
      have hni : -(n.natAbs : Int) = n := by omega
      show some (JField.int (-(n.natAbs : Int)), rest) = some (JField.int n, rest)
      rw [hni]
    · have hd : dumpField (.int n) = natDigits n.natAbs := by
        simp [dumpField, intDigits, hneg]
      rw [hd]
      obtain ⟨c, cs', hc, hcd⟩ := natDigits_head_digit n.natAbs
      have hne1 : ¬c = 'n' := digit_ne_char hcd 'n' rfl
      have hne2 : ¬c = 't' := digit_ne_char hcd 't' rfl
      have hne3 : ¬c = 'f' := digit_ne_char hcd 'f' rfl
      have hne4 : ¬c = '"' := digit_ne_char hcd '"' rfl
      have hne5 : ¬c = '-' := digit_ne_char hcd '-' rfl
      rw [hc]
      have hshape : (c :: cs') ++ rest = c :: (cs' ++ rest) := by simp
      rw [hshape]
      have h1 : strHasPrefix "null".data (c :: (cs' ++ rest)) = false :=
        strHasPrefix_ne_head 'n' _ c _ (fun h => hne1 h.symm)
      have h2 : strHasPrefix "true".data (c :: (cs' ++ rest)) = false :=
        strHasPrefix_ne_head 't' _ c _ (fun h => hne2 h.symm)
      have h3 : strHasPrefix "false".data (c :: (cs' ++ rest)) = false :=
        strHasPrefix_ne_head 'f' _ c _ (fun h => hne3 h.symm)
      simp only [parseFieldVal, h1, h2, h3, Bool.false_eq_true, if_false]
      rw [if_neg hne4, if_neg hne5]
      rw [show c :: (cs' ++ rest) = (c :: cs') ++ rest by simp, ← hc]
      rw [parseNatChars_natDigits _ _ hr]
      have hni : (n.natAbs : Int) = n := by omega
      show some (JField.int (n.natAbs : Int), rest) = some (JField.int n, rest)
      rw [hni]

theorem skipSpaces_cons_ne (c : Char) (xs : List Char) (h : ¬c = ' ') :
    skipSpaces (c :: xs) = c :: xs := by
  simp [skipSpaces, List.dropWhile_cons, h]

theorem skipSpaces_dumpField (v : JField) (X : List Char) :
    skipSpaces (dumpField v ++ X) = dumpField v ++ X := by
  cases v with
  | null => rfl
  | bool b => cases b <;> rfl
  | str s => rfl
  | int n =>
    by_cases hneg : n < 0
    · have hd : dumpField (.int n) = '-' :: natDigits n.natAbs := by
        simp [dumpField, intDigits, hneg]
      rw [hd]
      rfl
    · have hd : dumpField (.int n) = natDigits n.natAbs := by
        simp [dumpField, intDigits, hneg]
      rw [hd]
      obtain ⟨c, cs', hc, hcd⟩ := natDigits_head_digit n.natAbs
      rw [hc]
      exact skipSpaces_cons_ne c _ (digit_ne_char hcd ' ' rfl)

theorem parsePairs_step (f : Nat) (rest0 : List Char) :
    parsePairs (f + 1) ('"' :: rest0) =
      match parseStringBody (rest0.length + 1) rest0 with
      | some (k, r1) =>
        match r1 with
        | c1 :: r2 =>
          if c1 = ':' then
            match parseFieldVal (skipSpaces r2) with
            | some (v, r4) =>
              match r4 with
              | c2 :: r5 =>
                if c2 = rbrace then some ([(String.mk k, v)], r5)
                else if c2 = ',' then
                  match parsePairs f (skipSpaces r5) with
                  | some (ps, r6) => some ((String.mk k, v) :: ps, r6)
                  | none => none
                else none
              | [] => none
            | none => none
          else none
        | [] => none
      | none => none := rfl

theorem parseRecsList_step (f : Nat) (cs : List Char) :
    parseRecsList (f + 1) cs =
      match parseRecordChars cs with
      | some (r, r1) =>
        match r1 with
        | c :: r2 =>
          if c = ']' then some ([r], r2)
          else if c = ',' then
            match parseRecsList f (skipSpaces r2) with
            | some (rs, r3) => some (r :: rs, r3)
            | none => none
          else none
        | [] => none
      | none => none := rfl

theorem joinSep_cons_head (sep x : List Char) (xs : List (List Char)) :
    ∃ R, joinSep sep (x :: xs) = x ++ R := by
  cases xs with
  | nil => exact ⟨[], by simp [joinSep]⟩
  | cons y ys => exact ⟨sep ++ joinSep sep (y :: ys), by simp [joinSep]⟩

theorem joinSep_length_ge (sep : List Char) :
    ∀ (xss : List (List Char)), (∀ x ∈ xss, 1 ≤ x.length) →
      xss.length ≤ (joinSep sep xss).length := by
  intro xss
  induction xss with
  | nil => intro _; simp [joinSep]
  | cons x ys ih =>
    intro h
    cases ys with
    | nil =>
      have := h x (by simp)
      simp [joinSep]
      omega
    | cons y zs =>
      have hx := h x (by simp)
      have hrest := ih (fun z hz => h z (by simp [hz]))
      simp only [joinSep, List.length_append, List.length_cons] at *
      omega

theorem takeWhile_digit_nil_of_head (c : Char) (hc : c.isDigit = false)
    (xs : List Char) : (c :: xs).takeWhile Char.isDigit = [] := by
  simp [List.takeWhile_cons, hc]

theorem parsePairs_dump :
    ∀ (ps : JRecord) (fuel : Nat) (rest : List Char), ps ≠ [] →
      ps.length ≤ fuel →
      parsePairs fuel (joinSep [',', ' '] (ps.map dumpPair) ++ rbrace :: rest) =
        some (ps, rest) := by
  intro ps
  induction ps with
  | nil => intro fuel rest h; exact absurd rfl h
  | cons p ps' ih =>
    intro fuel rest _ hf
    obtain ⟨f, rfl⟩ : ∃ f, fuel = f + 1 :=
      ⟨fuel - 1, by simp only [List.length_cons] at hf; omega⟩
    obtain ⟨k, v⟩ := p
    cases ps' with
    | nil =>
      have hshape : joinSep [',', ' '] ([(k, v)].map dumpPair) ++ rbrace :: rest
          = '"' :: ((k.data.map escapeChar).flatten ++
            '"' :: ':' :: ' ' :: (dumpField v ++ rbrace :: rest)) := by
        simp [joinSep, dumpPair, dumpString, escString]
      rw [hshape, parsePairs_step]
      rw [parseStringBody_escape k.data _ _ (by
        have := escList_length k.data
        simp only [List.length_append, List.length_cons]
        omega)]
      simp only [if_true, if_false]
      have hsk : skipSpaces (' ' :: (dumpField v ++ rbrace :: rest))
          = dumpField v ++ rbrace :: rest := by
        rw [show skipSpaces (' ' :: (dumpField v ++ rbrace :: rest))
          = skipSpaces (dumpField v ++ rbrace :: rest) from by
            simp [skipSpaces, List.dropWhile_cons]]
        exact skipSpaces_dumpField v _
      rw [hsk]
      rw [parseFieldVal_dump v _ (takeWhile_digit_nil_of_head rbrace rfl rest)]
      simp only [if_true, if_false]
    | cons p2 ps'' =>
      have hlen2 : (p2 :: ps'').length ≤ f := by
        simp only [List.length_cons] at hf ⊢
        omega
      obtain ⟨k2, v2⟩ := p2
      have hshape : joinSep [',', ' '] (((k, v) :: (k2, v2) :: ps'').map dumpPair)
            ++ rbrace :: rest
          = '"' :: ((k.data.map escapeChar).flatten ++
            '"' :: ':' :: ' ' :: (dumpField v ++ ',' :: ' ' ::
              (joinSep [',', ' '] (((k2, v2) :: ps'').map dumpPair) ++ rbrace :: rest))) := by
        simp [joinSep, dumpPair, dumpString, escString]
      rw [hshape, parsePairs_step]
      rw [parseStringBody_escape k.data _ _ (by
        have := escList_length k.data
        simp only [List.length_append, List.length_cons]
        omega)]
      simp only [if_true, if_false]
      have hsk : skipSpaces (' ' :: (dumpField v ++ ',' :: ' ' ::
            (joinSep [',', ' '] (((k2, v2) :: ps'').map dumpPair) ++ rbrace :: rest)))
          = dumpField v ++ ',' :: ' ' ::
            (joinSep [',', ' '] (((k2, v2) :: ps'').map dumpPair) ++ rbrace :: rest) := by
        rw [show skipSpaces (' ' :: (dumpField v ++ ',' :: ' ' ::
            (joinSep [',', ' '] (((k2, v2) :: ps'').map dumpPair) ++ rbrace :: rest)))
          = skipSpaces (dumpField v ++ ',' :: ' ' ::
            (joinSep [',', ' '] (((k2, v2) :: ps'').map dumpPair) ++ rbrace :: rest)) from by
            simp [skipSpaces, List.dropWhile_cons]]
        exact skipSpaces_dumpField v _
      rw [hsk]
      rw [parseFieldVal_dump v _ (takeWhile_digit_nil_of_head ',' rfl _)]
      simp only [if_true, if_false]
      have hsk2 : skipSpaces (' ' ::
            (joinSep [',', ' '] (((k2, v2) :: ps'').map dumpPair) ++ rbrace :: rest))
          = joinSep [',', ' '] (((k2, v2) :: ps'').map dumpPair) ++ rbrace :: rest := by
        rw [show skipSpaces (' ' ::
            (joinSep [',', ' '] (((k2, v2) :: ps'').map dumpPair) ++ rbrace :: rest))
          = skipSpaces (joinSep [',', ' '] (((k2, v2) :: ps'').map dumpPair)
            ++ rbrace :: rest) from by
            simp [skipSpaces, List.dropWhile_cons]]
        obtain ⟨R, hR⟩ := joinSep_cons_head [',', ' '] (dumpPair (k2, v2))
          (ps''.map dumpPair)
        rw [show ((k2, v2) :: ps'').map dumpPair = dumpPair (k2, v2) :: ps''.map dumpPair
          from rfl, hR]
        rw [show dumpPair (k2, v2) ++ R ++ rbrace :: rest
          = '"' :: ((k2.data.map escapeChar).flatten ++ '"' :: ':' :: ' ' ::
            dumpField v2 ++ (R ++ rbrace :: rest)) from by
            simp [dumpPair, dumpString, escString]]
        exact skipSpaces_cons_ne _ _ (by decide)
      rw [hsk2, ih f rest (by simp) hlen2]
      cases k
      rfl

theorem parseRecordChars_cons (c2 : Char) (r2 : List Char) (h : ¬c2 = rbrace) :
    parseRecordChars (lbrace :: c2 :: r2) =
      parsePairs (c2 :: r2).length (skipSpaces (c2 :: r2)) := by
  have hstep : parseRecordChars (lbrace :: c2 :: r2) =
      if c2 = rbrace then some ([], r2)
      else parsePairs (c2 :: r2).length (skipSpaces (c2 :: r2)) := rfl
  rw [hstep, if_neg h]

theorem parseRecordChars_dump (r : JRecord) (rest : List Char) :
    parseRecordChars (dumpRecordChars r ++ rest) = some (r, rest) := by
  cases r with
  | nil => rfl
  | cons p ps =>
    obtain ⟨R, hR⟩ := joinSep_cons_head [',', ' '] (dumpPair p) (ps.map dumpPair)
    have hpair : ∃ Q, dumpPair p = '"' :: Q := by
      obtain ⟨k, v⟩ := p
      exact ⟨(k.data.map escapeChar).flatten ++ '"' :: ':' :: ' ' :: dumpField v,
        by simp [dumpPair, dumpString, escString]⟩
    obtain ⟨Q, hQ⟩ := hpair
    have hjoin : joinSep [',', ' '] ((p :: ps).map dumpPair)
        = '"' :: (Q ++ R) := by
      rw [List.map_cons, hR, hQ]
      simp
    have hshape : dumpRecordChars (p :: ps) ++ rest
        = lbrace :: '"' :: ((Q ++ R) ++ rbrace :: rest) := by
      simp only [dumpRecordChars, hjoin]
      simp
    rw [hshape, parseRecordChars_cons '"' _ (by decide)]
    rw [skipSpaces_cons_ne _ _ (by decide)]
    have hback : '"' :: ((Q ++ R) ++ rbrace :: rest)
        = joinSep [',', ' '] ((p :: ps).map dumpPair) ++ rbrace :: rest := by
      rw [hjoin]
      simp
    rw [hback]
    have hlen : (p :: ps).length
        ≤ (joinSep [',', ' '] ((p :: ps).map dumpPair)).length := by
      have := joinSep_length_ge [',', ' '] ((p :: ps).map dumpPair) (by
        intro x hx
        obtain ⟨q, hq1, hq2⟩ := List.mem_map.mp hx
        obtain ⟨k, v⟩ := q
        rw [← hq2]
        simp [dumpPair, dumpString])
      simpa using this
    rw [parsePairs_dump (p :: ps) _ rest (by simp) (by
      simp only [List.length_cons, List.length_append] at hlen ⊢
      omega)]

theorem parseRecsList_dump :
    ∀ (rs : Payload) (fuel : Nat) (rest : List Char), rs ≠ [] →
      rs.length ≤ fuel →
      parseRecsList fuel (joinSep [',', ' '] (rs.map dumpRecordChars) ++ ']' :: rest) =
        some (rs, rest) := by
  intro rs
  induction rs with
  | nil => intro fuel rest h; exact absurd rfl h
  | cons r rs' ih =>
    intro fuel rest _ hf
    obtain ⟨f, rfl⟩ : ∃ f, fuel = f + 1 :=
      ⟨fuel - 1, by simp only [List.length_cons] at hf; omega⟩
    cases rs' with
    | nil =>
      have hshape : joinSep [',', ' '] ([r].map dumpRecordChars) ++ ']' :: rest
          = dumpRecordChars r ++ ']' :: rest := by
        simp [joinSep]
      rw [hshape, parseRecsList_step, parseRecordChars_dump]
      simp only [if_true, if_false]
    | cons r2 rs'' =>
      have hlen2 : (r2 :: rs'').length ≤ f := by
        simp only [List.length_cons] at hf ⊢
        omega
      have hshape : joinSep [',', ' '] ((r :: r2 :: rs'').map dumpRecordChars) ++ ']' :: rest
          = dumpRecordChars r ++ ',' :: ' ' ::
            (joinSep [',', ' '] ((r2 :: rs'').map dumpRecordChars) ++ ']' :: rest) := by
        simp [joinSep]
      rw [hshape, parseRecsList_step, parseRecordChars_dump]
      simp only [if_true, if_false]
      have hsk : skipSpaces (' ' ::
            (joinSep [',', ' '] ((r2 :: rs'').map dumpRecordChars) ++ ']' :: rest))
          = joinSep [',', ' '] ((r2 :: rs'').map dumpRecordChars) ++ ']' :: rest := by
        rw [show skipSpaces (' ' ::
            (joinSep [',', ' '] ((r2 :: rs'').map dumpRecordChars) ++ ']' :: rest))
          = skipSpaces (joinSep [',', ' '] ((r2 :: rs'').map dumpRecordChars)
            ++ ']' :: rest) from by
            simp [skipSpaces, List.dropWhile_cons]]
        obtain ⟨R, hR⟩ := joinSep_cons_head [',', ' '] (dumpRecordChars r2)
          (rs''.map dumpRecordChars)
        rw [show ((r2 :: rs'').map dumpRecordChars)
          = dumpRecordChars r2 :: rs''.map dumpRecordChars from rfl, hR]
        rw [show dumpRecordChars r2 ++ R ++ ']' :: rest
          = lbrace :: (joinSep [',', ' '] (r2.map dumpPair) ++ [rbrace]
            ++ (R ++ ']' :: rest)) from by simp [dumpRecordChars]]
        exact skipSpaces_cons_ne _ _ (by decide)
      rw [hsk, ih f rest (by simp) hlen2]
      simp only []
      rw [if_neg (by decide)]

theorem parsePayloadChars_dump (rs : Payload) :
    parsePayloadChars (dumpPayloadChars rs) = some rs := by
  cases rs with
  | nil => rfl
  | cons r rs' =>
    obtain ⟨R, hR⟩ := joinSep_cons_head [',', ' '] (dumpRecordChars r)
      (rs'.map dumpRecordChars)
    have hshape : dumpPayloadChars (r :: rs')
        = '[' :: (lbrace :: (joinSep [',', ' '] (r.map dumpPair) ++ [rbrace] ++ (R ++ [']']))) := by
      simp only [dumpPayloadChars, List.map_cons, hR]
      simp [dumpRecordChars]
    have hstep : parsePayloadChars ('[' :: (lbrace :: (joinSep [',', ' '] (r.map dumpPair)
          ++ [rbrace] ++ (R ++ [']'])))) =
        if lbrace = ']' then
          (if (joinSep [',', ' '] (r.map dumpPair) ++ [rbrace] ++ (R ++ [']'])).isEmpty
            then some [] else none)
        else
          match parseRecsList (lbrace :: (joinSep [',', ' '] (r.map dumpPair)
              ++ [rbrace] ++ (R ++ [']']))).length
              (skipSpaces (lbrace :: (joinSep [',', ' '] (r.map dumpPair)
                ++ [rbrace] ++ (R ++ [']'])))) with
          | some (rs, rem) => if rem.isEmpty then some rs else none
          | none => none := rfl
    rw [hshape, hstep, if_neg (by decide)]
    have hskip : skipSpaces (lbrace :: (joinSep [',', ' '] (r.map dumpPair)
          ++ [rbrace] ++ (R ++ [']'])))
        = lbrace :: (joinSep [',', ' '] (r.map dumpPair) ++ [rbrace] ++ (R ++ [']'])) :=
      skipSpaces_cons_ne _ _ (by decide)
    rw [hskip]
    have hback : lbrace :: (joinSep [',', ' '] (r.map dumpPair) ++ [rbrace] ++ (R ++ [']']))
        = joinSep [',', ' '] ((r :: rs').map dumpRecordChars) ++ ']' :: ([] : List Char) := by
      simp only [List.map_cons, hR]
      simp [dumpRecordChars]
    rw [hback]
    have hlen : (r :: rs').length
        ≤ (joinSep [',', ' '] ((r :: rs').map dumpRecordChars)).length := by
      have := joinSep_length_ge [',', ' '] ((r :: rs').map dumpRecordChars) (by
        intro x hx
        obtain ⟨q, hq1, hq2⟩ := List.mem_map.mp hx
        rw [← hq2]
        simp [dumpRecordChars])
      simpa using this
    rw [parseRecsList_dump (r :: rs') _ [] (by simp) (by
      simp only [List.length_cons, List.length_append] at hlen ⊢
      omega)]
    rfl

/-! ## C1 — duplicate suppression in the scrape loop -/

/-- C1 counterexample: the claim "two harvested candidate elements describing
the same tournament (same Name and same OriginalDateText) yield exactly one
record in the final returned list" is false. Two candidate elements (`0` and
`1`) that parse to the identical record produce a returned list of length
two, not one: the loop of lines 1665-1713 appends unconditionally, and no
computed-ID bookkeeping exists anywhere in `scrape_tournament_focused`. -/
theorem c1_counterexample :
    sampleParsers.generic 0 = sampleParsers.generic 1 ∧
    processElements sampleParsers .generic noEnrich none [0, 1] =
      .ok [setQualifierFields sampleTournament, setQualifierFields sampleTournament] ∧
    (processElements sampleParsers .generic noEnrich none [0, 1]).map
        List.length ≠ .ok 1 := by
  have hrun : processElements sampleParsers .generic noEnrich none [0, 1] =
      .ok [setQualifierFields sampleTournament, setQualifierFields sampleTournament] := rfl
  refine ⟨rfl, hrun, ?_⟩
  rw [hrun]
  simp [Except.map]

/-- C1 (amended): within one scrape call, every successfully parsed candidate
element appends one record unconditionally — the returned list is exactly the
per-element parses in order (qualifier fields applied), with records of
duplicate TournamentID retained; the computed ID is never consulted.
(Stated for a page classified `generic` whose parsed records carry no detail
URL, so that no enrichment requests are made.) -/
theorem c1_amended {Elem : Type} (P : ItemParsers Elem)
    (detailInfo : String → Option EnrichResult) (maxDetails : Option Nat)
    (elems : List Elem)
    (h : ∀ e t, P.generic e = some t → t.detailURL = none) :
    processElements P .generic detailInfo maxDetails elems =
      .ok ((elems.filterMap P.generic).map setQualifierFields) := by
  unfold processElements
  rw [processElementsFrom_generic P detailInfo maxDetails h]
  simp

/-- Witness for `c1_amended` at the concrete two-element page. -/
theorem c1_amended_witness :
    processElements sampleParsers .generic noEnrich none [0, 1] =
      .ok (([0, 1].filterMap sampleParsers.generic).map setQualifierFields) :=
  c1_amended sampleParsers noEnrich none [0, 1]
    (fun _ t ht => by
      have : sampleTournament = t := Option.some.inj ht
      rw [← this]; rfl)

/-! ## C2 — selector harvesting is a union, not winner-take-all -/

/-- C2 counterexample: the claim "the first selector that yields matching
elements is accepted and harvesting stops" is false. With the generic
selector list, a page on which `table tr` matches element `10` and `li`
matches element `20` harvests `[10, 20]` — the union of both selectors'
matches — not `[10]`, the matches of the first successful selector. -/
theorem c2_counterexample :
    collectElements twoSel (selectorsFor .generic) = [10, 20] ∧
    winnerTakeAllElements twoSel (selectorsFor .generic) = [10] ∧
    collectElements twoSel (selectorsFor .generic) ≠
      winnerTakeAllElements twoSel (selectorsFor .generic) := by
  refine ⟨by decide, by decide, ?_⟩
  intro h
  have h1 : collectElements twoSel (selectorsFor .generic) = [10, 20] := by decide
  have h2 : winnerTakeAllElements twoSel (selectorsFor .generic) = [10] := by decide
  rw [h1, h2] at h
  simp at h

/-- C2 (amended): element harvesting is a union over the ordered selector
list: the candidate-element list is the concatenation, in selector order, of
the matches of every selector (selectors with no matches contribute
nothing) — it is not produced by a single winning selector. -/
theorem c2_amended {α : Type} (select : String → List α) (selectors : List String) :
    collectElements select selectors = (selectors.map select).flatten := by
  unfold collectElements
  have hstep : (fun (a : List α) (sel : String) =>
      let els := select sel
      if els.isEmpty then a else a ++ els) = fun a sel => a ++ select sel := by
    funext a sel
    show (if (select sel).isEmpty then a else a ++ select sel) = a ++ select sel
    by_cases h : (select sel).isEmpty
    · rw [if_pos h, emptyEqNil h, List.append_nil]
    · rw [if_neg h]
  rw [hstep, foldl_append_flatten]
  simp

/-! ## C3 — an exception in per-element parsing escapes the loop -/

/-- C3 counterexample: the claim "no exception raised while parsing one
candidate element escapes the per-page harvesting loop" is false. A
schedule page classified `golfgenius` (a supported site class: the app's own
help text lists such a URL, and `detect_site_type` classifies it so) makes
the very first loop iteration call the undefined
`parse_golfgenius_tournament_item`; the resulting `NameError` propagates out
of the loop, the remaining candidate is never processed, and no record list
is returned. -/
theorem c3_counterexample :
    detect_site_type "https://wpga-onlineregistration.golfgenius.com/pages/5233160"
      none = .golfgenius ∧
    processElements unitParsers .golfgenius noEnrich none [(), ()] =
      .error (.nameError "parse_golfgenius_tournament_item") := by
  exact ⟨by decide, rfl⟩

/-- C3 (amended): an exception raised while handling a candidate element
aborts the whole harvesting loop: for a `golfgenius`-classified schedule
page, any non-empty candidate list makes the loop raise `NameError` at its
first iteration — iteration does not continue and the scrape returns no
record list (the exception is only caught by the UI wrapper around the whole
scrape call, line 1794). -/
theorem c3_amended {Elem : Type} (P : ItemParsers Elem)
    (detailInfo : String → Option EnrichResult) (maxDetails : Option Nat)
    (elems : List Elem) (h : elems ≠ []) :
    processElements P .golfgenius detailInfo maxDetails elems =
      .error (.nameError "parse_golfgenius_tournament_item") := by
  cases elems with
  | nil => exact absurd rfl h
  | cons e rest => rfl

/-- Witness for `c3_amended` at a concrete two-element candidate list. -/
theorem c3_amended_witness :
    processElements unitParsers .golfgenius noEnrich none [(), ()] =
      .error (.nameError "parse_golfgenius_tournament_item") :=
  c3_amended unitParsers noEnrich none [(), ()] (by simp)

/-! ## C4 — `parse_date` on unmatched input -/

/-- C4 (code bug): the claim says that on a non-empty, non-placeholder input
matching no date template, `parse_date` "returns the original input substring
unchanged (it does not raise)". The code's own comment (line 160, "If no
standard format matches, return original") documents that intent, but the
code raises instead: the input `"hello"` fails the first seven formats, and
trying the 8th format `'%B %d-%d, %Y'` — which uses the `%d` directive
twice — makes `re.compile` raise `re.error` ("redefinition of group name
d"), which the `except ValueError` of line 111 does not catch. -/
theorem c4_code_bug :
    parse_date "hello" = .error (.reError "redefinition of group name d") ∧
    parse_date "hello" ≠ .ok (some "hello") := by
  have h1 : parse_date "hello" = .error (.reError "redefinition of group name d") := rfl
  refine ⟨h1, ?_⟩
  intro h
  rw [h1] at h
  simp at h

/-! ## C5 — the TournamentID formula -/

/-- C5 counterexample: the claim "the generated TournamentID equals the first
12 hex digits of the hash of Name + "-" + OriginalDateText, extended with
City/State and Course" is false: `generate_tournament_id` keeps only the
first TEN hex digits (and hashes `Name-Date[-Location]`, with no separate
City/State/Course inputs). At a record with no location, both formulas hash
the same string `"Spring Open Championship-5/15/2025"`, yet the produced IDs
differ — the code's is two digits shorter. -/
theorem c5_counterexample :
    generate_tournament_id sampleTournament = "d96b37ae08" ∧
    specTournamentId "Spring Open Championship" "5/15/2025" none none none =
      "d96b37ae08b6" ∧
    generate_tournament_id sampleTournament ≠
      specTournamentId "Spring Open Championship" "5/15/2025" none none none := by
  refine ⟨by decide, by decide, ?_⟩
  intro h
  have h1 : generate_tournament_id sampleTournament = "d96b37ae08" := by decide
  have h2 : specTournamentId "Spring Open Championship" "5/15/2025" none none none =
      "d96b37ae08b6" := by decide
  rw [h1, h2] at h
  simp at h

/-- C5 (amended): the TournamentID is the first 10 hex digits of the MD5 hash
of `Name + "-" + Date`, extended with `"-" + Location` when a (truthy)
location is present; it is a pure function of exactly the tuple
(Name, Date, Location) — identical tuples always yield the identical,
10-character ID. -/
theorem c5_amended (t1 t2 : Tournament) (hn : t1.name = t2.name)
    (hd : t1.date = t2.date) (hl : t1.location = t2.location) :
    generate_tournament_id t1 = generate_tournament_id t2 ∧
    (generate_tournament_id t1).length = 10 := by
  have hk : keyData t1 = keyData t2 := by
    unfold keyData
    rw [hn, hd, hl]
  constructor
  · unfold generate_tournament_id
    rw [hk]
  · unfold generate_tournament_id
    rw [strTake_length, md5Hex_length]
    simp

/-- Witness for `c5_amended`: two harvests of the same tournament (identical
name, date, location; different optional fields) get the identical ID. -/
theorem c5_amended_witness :
    generate_tournament_id sampleTournament = generate_tournament_id sampleTournament2 ∧
    (generate_tournament_id sampleTournament).length = 10 :=
  c5_amended sampleTournament sampleTournament2 rfl rfl rfl

/-! ## C6 — corrupt cache payloads -/

/-- C6 counterexample: the claim "the cache read returns not-found ... and the
corrupt stored entry is deleted from the store" is false in its second half:
at a store holding a non-JSON payload under the requested key, the read
returns not-found but the store after the call still contains the corrupt
entry — `load_from_cache` (lines 371-390) catches the decode error and
returns `None` without deleting anything. -/
theorem c6_counterexample :
    (load_from_cache "k" 24 100 corruptState).1 = none ∧
    (load_from_cache "k" 24 100 corruptState).2 = corruptState ∧
    lookupFile (load_from_cache "k" 24 100 corruptState).2.files "k.json" =
      some ("corrupt", 100) := by
  refine ⟨by decide, by decide, by decide⟩

/-- C6 (amended): for every cache key whose stored payload fails to
deserialize, the cache read returns not-found and never raises, but the
corrupt entry is left in the store untouched (nothing is deleted). -/
theorem c6_amended (key : String) (maxAge now : Nat) (st : CacheState)
    (content : String) (mtime : Nat)
    (hf : lookupFile st.files (key ++ ".json") = some (content, mtime))
    (hp : parsePayloadChars content.data = none) :
    load_from_cache key maxAge now st = (none, st) := by
  simp only [load_from_cache, hf]
  split
  · rfl
  · rw [hp]

/-- Witness for `c6_amended` at the concrete corrupt store. -/
theorem c6_amended_witness :
    load_from_cache "k" 24 100 corruptState = (none, corruptState) :=
  c6_amended "k" 24 100 corruptState "corrupt" 100 (by decide) (by decide)

/-! ## C7 — cache put-then-get roundtrip -/

/-- C7: for every key and every JSON-serializable record-list payload,
`save_to_cache(k, v)` followed immediately by `load_from_cache(k)` (same
clock instant, so before any TTL expiry) returns `v` unchanged (and leaves
the store exactly as written). -/
theorem c7_cache_roundtrip (key : String) (v : Payload) (maxAgeHours now : Nat)
    (st : CacheState) :
    load_from_cache key maxAgeHours now (save_to_cache key v now st) =
      (some v, save_to_cache key v now st) := by
  unfold load_from_cache save_to_cache
  simp only [lookupFile_insertFile]
  rw [if_neg (by omega)]
  rw [parsePayloadChars_dump]

/-! ## C8 — `parse_date` is the identity on canonical ISO dates -/

theorem isPySpace_digitCharOf : ∀ k, k < 10 → isPySpace (digitCharOf k) = false := by
  decide

theorem toLower_digitCharOf : ∀ k, k < 10 →
    Char.toLower (digitCharOf k) = digitCharOf k := by
  decide

theorem dropWhile_eq_self_of_head {p : Char → Bool} {c : Char} (h : p c = false)
    (xs : List Char) : (c :: xs).dropWhile p = c :: xs := by
  simp [List.dropWhile_cons, h]

theorem pyStrip_eq_self (l : List Char) (h1 : l.dropWhile isPySpace = l)
    (h2 : l.reverse.dropWhile isPySpace = l.reverse) :
    pyStrip (String.mk l) = String.mk l := by
  show String.mk (((String.mk l).data.dropWhile isPySpace).reverse.dropWhile
    isPySpace).reverse = String.mk l
  rw [show (String.mk l).data = l from rfl, h1, h2, List.reverse_reverse]

theorem string_ne_of_length {a b : String} (h : a.data.length ≠ b.data.length) :
    ¬a = b := by
  intro he
  subst he
  exact h rfl

theorem mem_enumFrom_snd {α : Type} : ∀ (l : List α) (i : Nat) (pr : Nat × α),
    pr ∈ l.enumFrom i → pr.2 ∈ l := by
  intro l
  induction l with
  | nil => intro i pr h; simp [List.enumFrom] at h
  | cons a as ih =>
    intro i pr h
    rcases List.mem_cons.mp h with h1 | h1
    · rw [h1]; simp
    · exact List.mem_cons_of_mem a (ih (i + 1) pr h1)

theorem mem_enum_snd {α : Type} (l : List α) (pr : Nat × α) (h : pr ∈ l.enum) :
    pr.2 ∈ l :=
  mem_enumFrom_snd l 0 pr h

theorem startsWithCI_digit {k : Nat} (hk : k < 10) (p : Char) (ps : List Char)
    (hp : p.isDigit = false) (cs : List Char) :
    startsWithCI (p :: ps) (digitCharOf k :: cs) = false := by
  have h1 : Char.toLower (digitCharOf k) = digitCharOf k := toLower_digitCharOf k hk
  have h2 : ¬p = digitCharOf k := by
    intro he
    rw [he, digitCharOf_isDigit k hk] at hp
    simp at hp
  simp [startsWithCI, h1, h2]

theorem pMonthFrom_digit (names : List String) {k : Nat} (hk : k < 10)
    (cs : List Char)
    (hnames : ∀ name ∈ names, name.data ≠ [] ∧
      (name.data.headD 'x').isDigit = false) :
    pMonthFrom names (digitCharOf k :: cs) = [] := by
  unfold pMonthFrom
  rw [List.filterMap_eq_nil_iff]
  intro pr hpr
  obtain ⟨hne, hhead⟩ := hnames pr.2 (mem_enum_snd names pr hpr)
  cases hd : pr.2.data with
  | nil => exact absurd hd hne
  | cons p ps =>
    have hp : p.isDigit = false := by
      rw [hd] at hhead
      simpa using hhead
    rw [startsWithCI_digit hk p ps hp cs]
    simp

theorem monthNamesFull_heads : ∀ name ∈ monthNamesFull,
    name.data ≠ [] ∧ (name.data.headD 'x').isDigit = false := by decide

theorem monthNamesAbbr_heads : ∀ name ∈ monthNamesAbbr,
    name.data ≠ [] ∧ (name.data.headD 'x').isDigit = false := by decide

theorem pLit_ne (ch c : Char) (cs : List Char) (h : ¬c = ch) :
    pLit ch (c :: cs) = [] := by
  simp [pLit, h]

theorem pLit_cons (ch : Char) (cs : List Char) : pLit ch (ch :: cs) = [((), cs)] := by
  simp [pLit]

theorem mem_ite_nil {α : Type} {c : Prop} [inst : Decidable c] {l : List α}
    {x : α} (h : x ∈ if c then l else []) : x ∈ l := by
  split at h
  · exact h
  · simp at h

theorem pNum2_mem (hi : Nat) (c1 c2 : Char) (rest : List Char) (x : Nat × List Char)
    (hx : x ∈ pNum2 hi (c1 :: c2 :: rest)) : x.2 = rest ∨ x.2 = c2 :: rest := by
  unfold pNum2 at hx
  rcases List.mem_append.mp hx with h | h
  · left
    have h2 : x ∈ (if 1 ≤ (c1.toNat - 48) * 10 + (c2.toNat - 48) ∧
        (c1.toNat - 48) * 10 + (c2.toNat - 48) ≤ hi then
        [((c1.toNat - 48) * 10 + (c2.toNat - 48), rest)] else []) := mem_ite_nil h
    have h3 := mem_ite_nil h2
    rw [List.mem_singleton] at h3
    rw [h3]
  · right
    have h2 : x ∈ (if 1 ≤ c1.toNat - 48 ∧ c1.toNat - 48 ≤ hi then
        [(c1.toNat - 48, c2 :: rest)] else []) := mem_ite_nil h
    have h3 := mem_ite_nil h2
    rw [List.mem_singleton] at h3
    rw [h3]

theorem pNum2_head (hi u w : Nat) (hu : u < 10) (hw : w < 10)
    (hlo : 1 ≤ 10 * u + w) (hhi : 10 * u + w ≤ hi) (rest : List Char) :
    ∃ t, pNum2 hi (digitCharOf u :: digitCharOf w :: rest) = (10 * u + w, rest) :: t := by
  have hval : (48 + u - 48) * 10 + (48 + w - 48) = 10 * u + w := by omega
  unfold pNum2
  simp only [digitCharOf_isDigit u hu, digitCharOf_isDigit w hw,
    digitCharOf_toNat u hu, digitCharOf_toNat w hw, Bool.and_self, if_true, hval]
  rw [if_pos ⟨hlo, hhi⟩]
  exact ⟨_, rfl⟩

theorem firstFullMatch_head (dt : PDate) (t : List (PDate × List Char)) :
    firstFullMatch ((dt, []) :: t) = some dt := by
  simp [firstFullMatch]

theorem flatten_map_eq_nil {α β : Type} (f : α → List β) (l : List α)
    (h : ∀ x ∈ l, f x = []) : (l.map f).flatten = [] := by
  induction l with
  | nil => rfl
  | cons a as ih =>
    simp only [List.map_cons, List.flatten_cons, h a (by simp),
      List.nil_append]
    exact ih (fun x hx => h x (by simp [hx]))

theorem natDigits_two (n : Nat) (h1 : 10 ≤ n) (h2 : n ≤ 99) :
    natDigits n = [digitCharOf (n / 10), digitCharOf (n % 10)] := by
  rw [natDigits_eq, if_neg (by omega), natDigits_eq, if_pos (by omega)]
  rfl

theorem natDigits_four (y : Nat) (h1 : 1000 ≤ y) (h2 : y ≤ 9999) :
    natDigits y = [digitCharOf (y / 1000), digitCharOf (y / 100 % 10),
      digitCharOf (y / 10 % 10), digitCharOf (y % 10)] := by
  rw [natDigits_eq, if_neg (by omega)]
  rw [natDigits_eq, if_neg (by omega)]
  rw [natDigits_eq, if_neg (by omega)]
  rw [natDigits_eq, if_pos (by omega)]
  have e1 : y / 10 / 10 / 10 = y / 1000 := by omega
  have e2 : y / 10 / 10 % 10 = y / 100 % 10 := by omega
  have e3 : y / 10 % 10 = y / 10 % 10 := rfl
  rw [e1, e2]
  simp

theorem pad2_digits (n : Nat) (h : n ≤ 99) :
    pad2 n = [digitCharOf (n / 10), digitCharOf (n % 10)] := by
  by_cases hn : n < 10
  · rw [pad2, if_pos hn]
    have h1 : n / 10 = 0 := by omega
    have h2 : n % 10 = n := by omega
    rw [h1, h2]
    rfl
  · rw [pad2, if_neg hn]
    exact natDigits_two n (by omega) h

theorem daysInMonth_le_31 (y m : Nat) : daysInMonth y m ≤ 31 := by
  unfold daysInMonth
  split
  · split <;> omega
  · split <;> omega

theorem validOrNone_of_nil (cands : List (PDate × List Char)) (h : cands = []) :
    validOrNone (firstFullMatch cands) = none := by
  rw [h]
  rfl

theorem fmtBdY_digit {k : Nat} (hk : k < 10) (cs : List Char) :
    fmtBdY (digitCharOf k :: cs) = none := by
  unfold fmtBdY fmtBdYCands pThen
  rw [pMonthFrom_digit monthNamesFull hk _ monthNamesFull_heads]
  rfl

theorem fmtbdY_digit {k : Nat} (hk : k < 10) (cs : List Char) :
    fmtbdY (digitCharOf k :: cs) = none := by
  unfold fmtbdY fmtbdYCands pThen
  rw [pMonthFrom_digit monthNamesAbbr hk _ monthNamesAbbr_heads]
  rfl

theorem fmtMDYslash_digits {k1 k2 k3 : Nat} (_h1 : k1 < 10) (h2 : k2 < 10)
    (h3 : k3 < 10) (cs : List Char) :
    fmtMDYslash (digitCharOf k1 :: digitCharOf k2 :: digitCharOf k3 :: cs) =
      none := by
  unfold fmtMDYslash fmtMDYslashCands pThen
  apply validOrNone_of_nil
  apply flatten_map_eq_nil
  intro x hx
  simp only []
  rcases pNum2_mem 12 (digitCharOf k1) (digitCharOf k2) (digitCharOf k3 :: cs)
      x hx with h | h <;> rw [h]
  · rw [pLit_ne '/' (digitCharOf k3) cs
      (digit_ne_char (digitCharOf_isDigit k3 h3) '/' (by decide))]
    rfl
  · rw [pLit_ne '/' (digitCharOf k2) (digitCharOf k3 :: cs)
      (digit_ne_char (digitCharOf_isDigit k2 h2) '/' (by decide))]
    rfl

theorem fmtYMD_isoStr (y m d : Nat) (hy2 : y ≤ 9999) (hm1 : 1 ≤ m)
    (hm2 : m ≤ 12) (hd1 : 1 ≤ d) (hd31 : d ≤ 31)
    (hvd : validDateB y m d = true) :
    fmtYMD [digitCharOf (y / 1000), digitCharOf (y / 100 % 10),
      digitCharOf (y / 10 % 10), digitCharOf (y % 10), '-',
      digitCharOf (m / 10), digitCharOf (m % 10), '-',
      digitCharOf (d / 10), digitCharOf (d % 10)] = some (PDate.mk y m d) := by
  have ha1 : y / 1000 < 10 := by omega
  have ha2 : y / 100 % 10 < 10 := by omega
  have ha3 : y / 10 % 10 < 10 := by omega
  have ha4 : y % 10 < 10 := by omega
  have hb1 : m / 10 < 10 := by omega
  have hb2 : m % 10 < 10 := by omega
  have hc1 : d / 10 < 10 := by omega
  have hc2 : d % 10 < 10 := by omega
  have hval : ((digitCharOf (y / 1000)).toNat - 48) * 1000 +
      ((digitCharOf (y / 100 % 10)).toNat - 48) * 100 +
      ((digitCharOf (y / 10 % 10)).toNat - 48) * 10 +
      ((digitCharOf (y % 10)).toNat - 48) = y := by
    rw [digitCharOf_toNat _ ha1, digitCharOf_toNat _ ha2,
      digitCharOf_toNat _ ha3, digitCharOf_toNat _ ha4]
    omega
  have hY4 : pYear4 [digitCharOf (y / 1000), digitCharOf (y / 100 % 10),
      digitCharOf (y / 10 % 10), digitCharOf (y % 10), '-',
      digitCharOf (m / 10), digitCharOf (m % 10), '-',
      digitCharOf (d / 10), digitCharOf (d % 10)] =
      [(y, '-' :: digitCharOf (m / 10) :: digitCharOf (m % 10) :: '-' ::
        digitCharOf (d / 10) :: digitCharOf (d % 10) :: [])] := by
    unfold pYear4
    simp only [digitCharOf_isDigit _ ha1, digitCharOf_isDigit _ ha2,
      digitCharOf_isDigit _ ha3, digitCharOf_isDigit _ ha4, Bool.and_self,
      if_true, hval]
  have hm10 : 10 * (m / 10) + m % 10 = m := by omega
  have hd10 : 10 * (d / 10) + d % 10 = d := by omega
  obtain ⟨t1, ht1⟩ := pNum2_head 12 (m / 10) (m % 10) hb1 hb2 (by omega)
    (by omega) ('-' :: digitCharOf (d / 10) :: digitCharOf (d % 10) :: [])
  rw [hm10] at ht1
  obtain ⟨t2, ht2⟩ := pNum2_head 31 (d / 10) (d % 10) hc1 hc2 (by omega)
    (by omega) []
  rw [hd10] at ht2
  have hcands : ∃ tail, fmtYMDCands [digitCharOf (y / 1000),
      digitCharOf (y / 100 % 10), digitCharOf (y / 10 % 10),
      digitCharOf (y % 10), '-', digitCharOf (m / 10), digitCharOf (m % 10),
      '-', digitCharOf (d / 10), digitCharOf (d % 10)] =
      (PDate.mk y m d, []) :: tail := by
    unfold fmtYMDCands pThen
    rw [hY4]
    simp only [List.map_cons, List.map_nil, List.flatten_cons,
      List.flatten_nil, List.append_nil]
    rw [pLit_cons]
    simp only [List.map_cons, List.map_nil, List.flatten_cons,
      List.flatten_nil, List.append_nil]
    rw [ht1]
    simp only [List.map_cons, List.flatten_cons]
    rw [pLit_cons]
    simp only [List.map_cons, List.map_nil, List.flatten_cons,
      List.flatten_nil, List.append_nil]
    rw [ht2]
    simp only [List.map_cons, List.cons_append]
    exact ⟨_, rfl⟩
  obtain ⟨tail, htl⟩ := hcands
  unfold fmtYMD
  rw [htl, firstFullMatch_head]
  unfold validOrNone
  simp only [hvd, if_true]

theorem parse_date_isoStr (y m d : Nat) (hv : validDateB y m d = true) :
    parse_date (isoStr y m d) = .ok (some (isoOf (PDate.mk y m d))) := by
  have hvb := hv
  simp only [validDateB, Bool.and_eq_true, decide_eq_true_eq] at hvb
  obtain ⟨⟨⟨⟨⟨hy1, hy2⟩, hm1⟩, hm2⟩, hd1⟩, hd2⟩ := hvb
  have hd31 : d ≤ 31 := le_trans hd2 (daysInMonth_le_31 y m)
  have ha1 : y / 1000 < 10 := by omega
  have ha2 : y / 100 % 10 < 10 := by omega
  have ha3 : y / 10 % 10 < 10 := by omega
  have hc2 : d % 10 < 10 := by omega
  have hstrip : pyStrip (isoStr y m d) = isoStr y m d := by
    unfold isoStr
    apply pyStrip_eq_self
    · exact dropWhile_eq_self_of_head (isPySpace_digitCharOf _ ha1) _
    · have hrev : ([digitCharOf (y / 1000), digitCharOf (y / 100 % 10),
          digitCharOf (y / 10 % 10), digitCharOf (y % 10), '-',
          digitCharOf (m / 10), digitCharOf (m % 10), '-',
          digitCharOf (d / 10), digitCharOf (d % 10)] : List Char).reverse =
          [digitCharOf (d % 10), digitCharOf (d / 10), '-',
           digitCharOf (m % 10), digitCharOf (m / 10), '-',
           digitCharOf (y % 10), digitCharOf (y / 10 % 10),
           digitCharOf (y / 100 % 10), digitCharOf (y / 1000)] := by rfl
      rw [hrev]
      exact dropWhile_eq_self_of_head (isPySpace_digitCharOf _ hc2) _
  have hne : ¬isoStr y m d = "" := by
    intro h
    exact List.noConfusion (congrArg String.data h)
  have hph : datePlaceholders.contains (pyLower (isoStr y m d)) = false := by
    have hlen : (pyLower (isoStr y m d)).data.length = 10 := by
      simp [pyLower, isoStr]
    have n1 : ¬pyLower (isoStr y m d) = "tbd" :=
      string_ne_of_length (by rw [hlen]; decide)
    have n2 : ¬pyLower (isoStr y m d) = "tba" :=
      string_ne_of_length (by rw [hlen]; decide)
    have n3 : ¬pyLower (isoStr y m d) = "to be determined" :=
      string_ne_of_length (by rw [hlen]; decide)
    have n4 : ¬pyLower (isoStr y m d) = "to be announced" :=
      string_ne_of_length (by rw [hlen]; decide)
    simp [datePlaceholders, n1, n2, n3, n4]
  have htf : tryFormats dateFormatsHead (isoStr y m d).data =
      some (PDate.mk y m d) := by
    show tryFormats dateFormatsHead [digitCharOf (y / 1000),
      digitCharOf (y / 100 % 10), digitCharOf (y / 10 % 10),
      digitCharOf (y % 10), '-', digitCharOf (m / 10), digitCharOf (m % 10),
      '-', digitCharOf (d / 10), digitCharOf (d % 10)] = some (PDate.mk y m d)
    simp only [dateFormatsHead, tryFormats, fmtBdY_digit ha1, fmtbdY_digit ha1,
      fmtMDYslash_digits ha1 ha2 ha3,
      fmtYMD_isoStr y m d hy2 hm1 hm2 hd1 hd31 hv]
  unfold parse_date
  rw [if_neg hne]
  simp only [hstrip, hph]
  rw [if_neg Bool.false_ne_true]
  rw [htf]

theorem isoOf_eq_isoStr (y m d : Nat) (hy1 : 1000 ≤ y) (hy2 : y ≤ 9999)
    (hm : m ≤ 99) (hd : d ≤ 99) :
    isoOf (PDate.mk y m d) = isoStr y m d := by
  unfold isoOf isoStr
  rw [natDigits_four y hy1 hy2, pad2_digits m hm, pad2_digits d hd]
  rfl

/-- C8: counterexample. The canonical zero-padded ISO rendering of
May 15 of year 999 is `"0999-05-15"`, an ISO `YYYY-MM-DD` string; `parse_date`
parses it with `'%Y-%m-%d'` but re-renders the year without padding
(`strftime('%Y')`), returning `"999-05-15"`, not the input unchanged. -/
theorem c8_counterexample :
    isoStr 999 5 15 = "0999-05-15" ∧
    parse_date "0999-05-15" = .ok (some "999-05-15") ∧
    ¬parse_date "0999-05-15" = .ok (some "0999-05-15") := by
  have hs : isoStr 999 5 15 = "0999-05-15" := by decide
  have h999 : natDigits 999 = ['9', '9', '9'] := by
    rw [natDigits_eq, if_neg (by omega), natDigits_eq, if_neg (by omega),
      natDigits_eq, if_pos (by omega)]
    rfl
  have hiso : isoOf (PDate.mk 999 5 15) = "999-05-15" := by
    unfold isoOf
    rw [h999, pad2_digits 5 (by omega), pad2_digits 15 (by omega)]
    rfl
  have hp := parse_date_isoStr 999 5 15 (by decide)
  rw [hs, hiso] at hp
  refine ⟨hs, hp, ?_⟩
  rw [hp]
  intro hEq
  simp at hEq

/-- C8 (amended): `parse_date` is the identity on canonical ISO `YYYY-MM-DD`
strings whose year has four significant digits: for every valid date
`(y, m, d)` with `1000 ≤ y`, parsing the zero-padded rendering returns
exactly that rendering. (For years below 1000 the zero-padding of the year
is stripped, as the counterexample shows.) -/
theorem c8_amended (y m d : Nat) (hv : validDateB y m d = true)
    (hy : 1000 ≤ y) :
    parse_date (isoStr y m d) = .ok (some (isoStr y m d)) := by
  rw [parse_date_isoStr y m d hv]
  have hvb := hv
  simp only [validDateB, Bool.and_eq_true, decide_eq_true_eq] at hvb
  obtain ⟨⟨⟨⟨⟨hy1, hy2⟩, hm1⟩, hm2⟩, hd1⟩, hd2⟩ := hvb
  have hd31 : d ≤ 31 := le_trans hd2 (daysInMonth_le_31 y m)
  rw [isoOf_eq_isoStr y m d hy hy2 (by omega) (by omega)]

/-- C8 (amended), witness: the amended theorem applied at May 15, 2023. -/
theorem c8_amended_witness :
    validDateB 2023 5 15 = true ∧ 1000 ≤ 2023 ∧
    parse_date (isoStr 2023 5 15) = .ok (some (isoStr 2023 5 15)) :=
  ⟨by decide, by decide, c8_amended 2023 5 15 (by decide) (by decide)⟩

/-! ## C9 — no scheme normalization in the fetcher -/

/-- C9 counterexample: the claim "for every URL that has no scheme, the
fetcher normalizes it by prefixing https:// before issuing the request" is
false: fetching the scheme-less `"example.com"` issues the request for
`"example.com"` itself — `get_page_html` (lines 334-355) contains no
normalization, and the requested URL is not `"https://example.com"`. -/
theorem c9_counterexample :
    hasScheme "example.com" = false ∧
    (get_page_html alwaysOk "example.com" 3).2 = ["example.com"] ∧
    (get_page_html alwaysOk "example.com" 3).2 ≠ ["https://example.com"] := by
  refine ⟨by decide, by decide, ?_⟩
  intro h
  have h1 : (get_page_html alwaysOk "example.com" 3).2 = ["example.com"] := by decide
  rw [h1] at h
  simp at h

/-- C9 (amended): `get_page_html` issues every request against the URL
exactly as it received it — scheme-less URLs included; no `https://` prefix
(or any other normalization) is ever applied. -/
theorem c9_amended (respond : Nat → String → FetchOutcome) (url : String)
    (maxRetries : Nat) (u : String)
    (hu : u ∈ (get_page_html respond url maxRetries).2) : u = url :=
  get_page_html_go_mem respond url maxRetries 0 [] u (by simp) hu

/-- Witness for `c9_amended` at the concrete scheme-less fetch. -/
theorem c9_amended_witness : "example.com" = "example.com" :=
  c9_amended alwaysOk "example.com" 3 "example.com" (by decide)

/-! ## C10 — the qualifier flag invariant -/

/-- C10: for a record with tournament name `n` flowing through the loop body
of lines 1685-1693, `Is Qualifier` is true iff the lowercased name contains
one of the eight qualifier keywords, and whenever it is true the
`Tournament Type` equals `"Qualifying Round"`. -/
theorem c10_qualifier_flag (t : Tournament) (n : String) (h : t.name = some n) :
    ((setQualifierFields t).isQualifier = true ↔
      (qualifierKeywords.any (fun kw => pyContains (pyLower n) kw)) = true) ∧
    ((setQualifierFields t).isQualifier = true →
      (setQualifierFields t).tournamentType = some "Qualifying Round") := by
  have hq : (setQualifierFields t).isQualifier = is_qualifier_tournament t.name := by
    unfold setQualifierFields
    by_cases hb : is_qualifier_tournament t.name
    · simp [hb]
    · simp [hb]
  constructor
  · rw [hq, h]
    unfold is_qualifier_tournament
    by_cases he : n = ""
    · subst he
      simp
      decide
    · simp [he]
  · intro htrue
    have : is_qualifier_tournament t.name = true := by rw [← hq]; exact htrue
    unfold setQualifierFields
    rw [this]
    simp

/-- Witness for `c10_qualifier_flag` at a record named
`"U.S. Open Local Qualifier"`. -/
theorem c10_qualifier_flag_witness :
    ((setQualifierFields qualSample).isQualifier = true ↔
      (qualifierKeywords.any (fun kw =>
        pyContains (pyLower "U.S. Open Local Qualifier") kw)) = true) ∧
    ((setQualifierFields qualSample).isQualifier = true →
      (setQualifierFields qualSample).tournamentType = some "Qualifying Round") :=
  c10_qualifier_flag qualSample "U.S. Open Local Qualifier" rfl

end GolfScraper
